import Mathlib

/-!
# cplasma: tileable gradient noise composited into a pixel buffer

A shallow embedding of `led/effects/cplasma/cplasma.c` in exact arithmetic.

* Floating values (`float`, `double`) are elements of an ordered field `K`
  with a floor function (`ℚ` for evaluation, `ℝ` for the real-valued reading);
  rounding is not modelled.
* The only quotient of the program, `total / max` in `make_noise`, has no value
  when `max` is zero (the C double is then `0.0/0.0`, a NaN).  Values that can
  be such a NaN (`noise[i]`, the pixels of the frame) are `Option K`, `none`
  standing for NaN.
* `int` values are integers.  Every `int` the program computes stays inside the
  32-bit range as long as `octaves ≤ 21` (the largest is `1024 * 2 ^ 20`).
* The tables `PERM` and `GRAD3` live in `noise.h`; the functions take them as
  parameters.
-/

namespace CPlasma

section Definitions

variable {K : Type} [LinearOrderedField K] [FloorRing K]

/-! ## C primitives -/

/-- Conversion `(int)v` of a floating value: truncation toward zero. -/
def toInt (v : K) : Int := if 0 ≤ v then ⌊v⌋ else ⌈v⌉

/-- The C library `fmod`/`fmodf`: `x - n * y`, `n` being `x / y` truncated toward zero,
so that the result has the sign of `x`. -/
def fmod (x y : K) : K := x - (toInt (x / y) : K) * y

/-- Two's complement representation of an `int` on 32 bits. -/
def bits32 (a : Int) : Nat := (a % 2 ^ 32).toNat

/-- The `int` represented by a 32-bit pattern. -/
def ofBits32 (n : Nat) : Int := if n < 2 ^ 31 then (n : Int) else (n : Int) - 2 ^ 32

/-- Bitwise `a & b` on 32-bit two's complement `int`s. -/
def int_and (a b : Int) : Int := ofBits32 (bits32 a &&& bits32 b)

/-- The macro `lerp(t, a, b)`, `((a) + (t) * ((b) - (a)))`. -/
def lerp (t a b : K) : K := a + t * (b - a)

/-! ## noise3 -/

/-- The function `grad3`: dot product of `(x, y, z)` with the gradient selected by `hash & 15`. -/
def grad3 (GRAD3 : Int → Nat → K) (hash : Int) (x y z : K) : K :=
  let h := int_and hash 15
  x * GRAD3 h 0 + y * GRAD3 h 1 + z * GRAD3 h 2

/-- The function `noise3` of cplasma.c (copied there from the python noise module). -/
def noise3 (PERM : Int → Int) (GRAD3 : Int → Nat → K) (x y z : K)
    (repeatx repeaty repeatz base : Int) : K :=
  let i : Int := ⌊fmod x (repeatx : K)⌋
  let j : Int := ⌊fmod y (repeaty : K)⌋
  let k : Int := ⌊fmod z (repeatz : K)⌋
  let ii : Int := toInt (fmod (((i + 1 : Int) : K)) (repeatx : K))
  let jj : Int := toInt (fmod (((j + 1 : Int) : K)) (repeaty : K))
  let kk : Int := toInt (fmod (((k + 1 : Int) : K)) (repeatz : K))
  let i := int_and i 255 + base
  let j := int_and j 255 + base
  let k := int_and k 255 + base
  let ii := int_and ii 255 + base
  let jj := int_and jj 255 + base
  let kk := int_and kk 255 + base
  let x := x - (⌊x⌋ : K)
  let y := y - (⌊y⌋ : K)
  let z := z - (⌊z⌋ : K)
  let fx := x * x * x * (x * (x * 6 - 15) + 10)
  let fy := y * y * y * (y * (y * 6 - 15) + 10)
  let fz := z * z * z * (z * (z * 6 - 15) + 10)
  let A := PERM i
  let AA := PERM (A + j)
  let AB := PERM (A + jj)
  let B := PERM ii
  let BA := PERM (B + j)
  let BB := PERM (B + jj)
  lerp fz (lerp fy (lerp fx (grad3 GRAD3 (PERM (AA + k)) x y z)
                            (grad3 GRAD3 (PERM (BA + k)) (x - 1) y z))
                   (lerp fx (grad3 GRAD3 (PERM (AB + k)) x (y - 1) z)
                            (grad3 GRAD3 (PERM (BB + k)) (x - 1) (y - 1) z)))
          (lerp fy (lerp fx (grad3 GRAD3 (PERM (AA + kk)) x y (z - 1))
                            (grad3 GRAD3 (PERM (BA + kk)) (x - 1) y (z - 1)))
                   (lerp fx (grad3 GRAD3 (PERM (AB + kk)) x (y - 1) (z - 1))
                            (grad3 GRAD3 (PERM (BB + kk)) (x - 1) (y - 1) (z - 1))))

/-! ## make_noise -/

/-- The quotient `a / b` of two doubles in exact arithmetic.  A zero divisor gives no number:
in the program the dividend is then zero as well and the C quotient `0.0/0.0` is a NaN. -/
def fdiv (a b : K) : Option K := if b = 0 then none else some (a / b)

/-- Sum of two doubles either of which may be a NaN (`none`). -/
def dadd (a b : Option K) : Option K := a.bind fun u => b.map fun v => u + v

/-- Product of two doubles either of which may be a NaN (`none`). -/
def dmul (a b : Option K) : Option K := a.bind fun u => b.map fun v => u * v

/-- The local variables of `make_noise` that its loop updates. -/
structure Octaves (K : Type) where
  freq : K
  amp : K
  max : K
  total : K

/-- One pass of the body of the `for` loop of `make_noise`. -/
def make_noise_body (PERM : Int → Int) (GRAD3 : Int → Nat → K) (x y z : K)
    (s : Octaves K) : Octaves K :=
  let persistence : K := 0.5
  let lacunarity : K := 2.0
  let repeatx : Int := 1024
  let repeaty : Int := 1024
  let repeatz : Int := 1024
  let base : Int := 0
  { total := s.total + noise3 PERM GRAD3 (x * s.freq) (y * s.freq) (z * s.freq)
      (toInt ((repeatx : K) * s.freq)) (toInt ((repeaty : K) * s.freq))
      (toInt ((repeatz : K) * s.freq)) base * s.amp
    max := s.max + s.amp
    freq := s.freq * lacunarity
    amp := s.amp * persistence }

/-- The locals of `make_noise` after `n` passes of its loop. -/
def make_noise_loop (PERM : Int → Int) (GRAD3 : Int → Nat → K) (x y z : K) (n : Nat) :
    Octaves K :=
  (make_noise_body PERM GRAD3 x y z)^[n] { freq := 1.0, amp := 1.0, max := 0.0, total := 0.0 }

/-- The function `make_noise`: the loop `for (i = 0; i < octaves; i++)` runs `octaves` times
(not at all when `octaves ≤ 0`), then `total / max` is returned. -/
def make_noise (PERM : Int → Int) (GRAD3 : Int → Nat → K) (x y z : K) (octaves : Int) :
    Option K :=
  let s := make_noise_loop PERM GRAD3 x y z octaves.toNat
  fdiv s.total s.max

/-! ## py_render -/

/-- The exceptions `py_render` raises.  The `TypeError`s of the `PySequence_Check` tests are
excluded by the types of the arguments. -/
inductive PyExc
  | ValueError_not_the_same_length
  | MemoryError
  deriving DecidableEq

/-- The scratch buffers `py_render` obtains from `PyMem_Malloc`. -/
inductive Scratch
  | scaledX
  | scaledY
  | scaledZ
  | noise
  deriving DecidableEq

/-- The arguments of `render`.  The frame is given by its sequence length
(`PySequence_Length(py_frame)`, the number of rows of a two-dimensional array) and by its
data (`PyArray_DATA`, the doubles of the array in row-major order). -/
structure RenderArgs (K : Type) [Zero K] where
  zoom : K
  modelX : List K
  modelY : List K
  modelZ : List K
  time : K
  time_const : K
  octaves : Int
  framelen : Nat
  pixels : List (Option K)
  color : Fin 3 → K := fun _ => 0

/-- What a call of `py_render` leaves behind: the value returned (`Py_None` or an exception),
the data of the frame, and the scratch buffers that were allocated and not freed. -/
structure Returned (K : Type) where
  result : Except PyExc Unit
  pixels : List (Option K)
  live : List Scratch

/-- The Z offset `z0 = fmod(time * time_const, 1024.0f)`. -/
def z_offset (time time_const : K) : K := fmod (time * time_const) 1024.0

/-- The array `noise` of `py_render` when the compositing starts (lines 131-147): the points
are scaled by `zoom`, `make_noise` is taken at each with Z shifted by `z0`, and
`1.2f*noise[i] + (1.2f*0.35f)` is applied. -/
def noise_field (PERM : Int → Int) (GRAD3 : Int → Nat → K) (zoom : K)
    (modelX modelY modelZ : List K) (time time_const : K) (octaves : Int) :
    List (Option K) :=
  let z0 := z_offset time time_const
  let scaledX := modelX.map fun v => v * zoom
  let scaledY := modelY.map fun v => v * zoom
  let scaledZ := modelZ.map fun v => v * zoom
  let noise := List.zipWith3 (fun sx sy sz => make_noise PERM GRAD3 sx sy (sz + z0) octaves)
    scaledX scaledY scaledZ
  noise.map fun n => dadd (dmul (some 1.2) n) (some (1.2 * 0.35))

/-- One statement `pixels[idx] op= f(noise[i])` of the compositing loops.  Reading `noise` or
`pixels` outside the array is undefined behaviour, `none`. -/
def update_px (noise pixels : List (Option K)) (idx i : Nat)
    (f : Option K → Option K → Option K) : Option (List (Option K)) :=
  match noise[i]?, pixels[idx]? with
  | some n, some p => some (pixels.set idx (f p n))
  | _, _ => none

/-- Body of the loop of the non-black branch: `pixels[3*i+c] += noise[i] * color[c]`. -/
def tint_body (color : Fin 3 → K) (noise pixels : List (Option K)) (i : Nat) :
    Option (List (Option K)) :=
  (update_px noise pixels (3 * i) i fun p n => dadd p (dmul n (some (color 0)))).bind fun px =>
  (update_px noise px (3 * i + 1) i fun p n => dadd p (dmul n (some (color 1)))).bind fun px =>
  update_px noise px (3 * i + 2) i fun p n => dadd p (dmul n (some (color 2)))

/-- Body of the loop of the black branch: `pixels[3*i+c] *= noise[i]`. -/
def scale_body (noise pixels : List (Option K)) (i : Nat) : Option (List (Option K)) :=
  (update_px noise pixels (3 * i) i fun p n => dmul p n).bind fun px =>
  (update_px noise px (3 * i + 1) i fun p n => dmul p n).bind fun px =>
  update_px noise px (3 * i + 2) i fun p n => dmul p n

/-- The compositing of `py_render` (lines 148-159): both loops run `i` from 0 to
`framelen - 1`.  The result is `none` when an access falls outside `noise` or `pixels`. -/
def composite (color : Fin 3 → K) (noise : List (Option K)) (framelen : Nat)
    (pixels : List (Option K)) : Option (List (Option K)) :=
  if ¬ (color 0 = 0 ∧ color 1 = 0 ∧ color 2 = 0) then
    (List.range framelen).foldlM (tint_body color noise) pixels
  else
    (List.range framelen).foldlM (scale_body noise) pixels

/-- The function `py_render`.  `malloc b` tells whether the `PyMem_Malloc` of scratch buffer `b`
succeeds.  The result is `none` when the call has undefined behaviour (an access outside an
array). -/
def py_render (PERM : Int → Int) (GRAD3 : Int → Nat → K) (malloc : Scratch → Bool)
    (a : RenderArgs K) : Option (Returned K) :=
  let modelXlen := a.modelX.length
  let modelYlen := a.modelY.length
  let modelZlen := a.modelZ.length
  if modelXlen ≠ modelYlen ∨ modelYlen ≠ modelZlen then
    some ⟨.error .ValueError_not_the_same_length, a.pixels, []⟩
  else if ¬ malloc .scaledX then
    -- dealloc_scaledX
    some ⟨.error .MemoryError, a.pixels, ([] : List Scratch).erase .scaledX⟩
  else if ¬ malloc .scaledY then
    -- dealloc_scaledY
    some ⟨.error .MemoryError, a.pixels, ([Scratch.scaledX].erase .scaledY).erase .scaledX⟩
  else if ¬ malloc .scaledZ then
    -- dealloc_scaledZ
    some ⟨.error .MemoryError, a.pixels,
      (([Scratch.scaledX, .scaledY].erase .scaledZ).erase .scaledY).erase .scaledX⟩
  else if ¬ malloc .noise then
    -- return PyErr_NoMemory();
    some ⟨.error .MemoryError, a.pixels, [.scaledX, .scaledY, .scaledZ]⟩
  else
    let noise := noise_field PERM GRAD3 a.zoom a.modelX a.modelY a.modelZ a.time a.time_const
      a.octaves
    match composite a.color noise a.framelen a.pixels with
    | none => none
    | some pixels =>
      some ⟨.ok (), pixels,
        (((([Scratch.scaledX, .scaledY, .scaledZ, .noise].erase .noise).erase .scaledX).erase
          .scaledY).erase .scaledZ)⟩

/-! ## Auxiliary definitions for the statements -/

/-- Three updates in a row, the shape shared by the bodies of both compositing loops. -/
def body3 (f : Fin 3 → Option K → Option K → Option K) (noise pixels : List (Option K))
    (i : Nat) : Option (List (Option K)) :=
  (update_px noise pixels (3 * i) i (f 0)).bind fun px =>
  (update_px noise px (3 * i + 1) i (f 1)).bind fun px =>
  update_px noise px (3 * i + 2) i (f 2)

/-- The value a compositing loop leaves at `pixels[3*i+c]` once pass `i` is done. -/
def updated (f : Fin 3 → Option K → Option K → Option K) (noise pixels : List (Option K))
    (i : Nat) (c : Fin 3) : Option (Option K) :=
  (pixels[3 * i + c.val]?).bind fun p => (noise[i]?).map fun n => f c p n

/-- The operation one statement of the compositing applies to `pixels[3*i+c]`: the product
with `noise[i]` under a black colour, the sum with `noise[i] * color[c]` otherwise. -/
def blend (color : Fin 3 → K) (c : Fin 3) (p n : Option K) : Option K :=
  if color 0 = 0 ∧ color 1 = 0 ∧ color 2 = 0 then dmul p n else dadd p (dmul n (some (color c)))

/-! ## Reference tables and sample arguments -/

/-- Modelled from the spec: the 256 entries of the permutation table of `noise.h`, a file
that is not among the sources: a permutation of 0..255, here the one of the classic
improved-noise scheme. -/
def permTable : List Nat :=
  [151,160,137,91,90,15,131,13,201,95,96,53,194,233,7,225,140,36,103,30,69,142,8,99,37,240,
   21,10,23,190,6,148,247,120,234,75,0,26,197,62,94,252,219,203,117,35,11,32,57,177,33,88,
   237,149,56,87,174,20,125,136,171,168,68,175,74,165,71,134,139,48,27,166,77,146,158,231,
   83,111,229,122,60,211,133,230,220,105,92,41,55,46,245,40,244,102,143,54,65,25,63,161,1,
   216,80,73,209,76,132,187,208,89,18,169,200,196,135,130,116,188,159,86,164,100,109,198,
   173,186,3,64,52,217,226,250,124,123,5,202,38,147,118,126,255,82,85,212,207,206,59,227,
   47,16,58,17,182,189,28,42,223,183,170,213,119,248,152,2,44,154,163,70,221,153,101,155,
   167,43,172,9,129,22,39,253,19,98,108,110,79,113,224,232,178,185,112,104,218,246,97,228,
   251,34,242,193,238,210,144,12,191,179,162,241,81,51,145,235,249,14,239,107,49,192,214,
   31,181,199,106,157,184,84,204,176,115,121,50,45,127,4,150,254,138,236,205,93,222,114,67,
   29,24,72,243,141,128,195,78,66,215,61,156,180]

/-- Modelled from the spec: the array `PERM` of `noise.h`, the permutation table written
twice so that the indices up to 510 stay inside it. -/
def PERM_ref (i : Int) : Int := ((permTable ++ permTable).getD i.toNat 0 : Nat)

/-- Modelled from the spec: the 16 gradient vectors of `noise.h`, with components in
`-1, 0, 1` (the classic improved-noise scheme). -/
def gradTable : List (List Int) :=
  [[1,1,0],[-1,1,0],[1,-1,0],[-1,-1,0],[1,0,1],[-1,0,1],[1,0,-1],[-1,0,-1],
   [0,1,1],[0,-1,1],[0,1,-1],[0,-1,-1],[1,0,-1],[-1,0,-1],[0,-1,1],[0,1,1]]

/-- Modelled from the spec: the array `GRAD3` of `noise.h`. -/
def GRAD3_ref (h : Int) (c : Nat) : K := (((gradTable.getD h.toNat []).getD c 0 : Int) : K)

/-- Every `PyMem_Malloc` succeeds. -/
def malloc_ok : Scratch → Bool := fun _ => true

/-- Two points and a frame of two white pixels, composited with the default colour. -/
def args_two : RenderArgs ℚ :=
  { zoom := 1, modelX := [0, 1], modelY := [0, 0], modelZ := [0, 0], time := 0,
    time_const := 0, octaves := 1, framelen := 2,
    pixels := [some 1, some 1, some 1, some 1, some 1, some 1] }

/-- The arguments `args_two` with the tint `(0, 0, 0.5)`. -/
def args_tint : RenderArgs ℚ := { args_two with color := ![0, 0, 0.5] }

/-- Two points and a frame of one white pixel only. -/
def args_short : RenderArgs ℚ :=
  { zoom := 1, modelX := [0, 0], modelY := [0, 0], modelZ := [0, 0], time := 0,
    time_const := 0, octaves := 1, framelen := 1,
    pixels := [some 1, some 1, some 1] }

/-- One point and a frame of two white pixels. -/
def args_long : RenderArgs ℚ :=
  { zoom := 1, modelX := [0], modelY := [0], modelZ := [0], time := 0,
    time_const := 0, octaves := 1, framelen := 2,
    pixels := [some 1, some 1, some 1, some 1, some 1, some 1] }

/-- Models of lengths 3, 4 and 3. -/
def args_mismatch : RenderArgs ℚ :=
  { zoom := 1, modelX := [0, 0, 0], modelY := [0, 0, 0, 0], modelZ := [0, 0, 0], time := 0,
    time_const := 0, octaves := 1, framelen := 3,
    pixels := [some 1, some 1, some 1, some 1, some 1, some 1, some 1, some 1, some 1] }

/-- The accesses of a compositing loop in the order they are made: pass `i` reads `noise[i]`
and reads and writes `pixels[3*i]`, then `pixels[3*i+1]`, then `pixels[3*i+2]`.  Each pair is
(index in `noise`, index in `pixels`). -/
def accesses (framelen : Nat) : List (Nat × Nat) :=
  (List.range framelen).flatMap fun i => [(i, 3 * i), (i, 3 * i + 1), (i, 3 * i + 2)]

/-- One point and a flat frame: a one-dimensional sequence of three doubles, of length 3. -/
def args_flat : RenderArgs ℚ :=
  { zoom := 1, modelX := [0], modelY := [0], modelZ := [0], time := 0,
    time_const := 0, octaves := 1, framelen := 3,
    pixels := [some 1, some 1, some 1] }

/-- One point, a frame of one white pixel, and `octaves = 0`. -/
def args_no_octave : RenderArgs ℚ :=
  { zoom := 1, modelX := [0], modelY := [0], modelZ := [0], time := 0,
    time_const := 0, octaves := 0, framelen := 1,
    pixels := [some 1, some 1, some 1] }

/-! ## Decomposition of `noise3` -/

/-- The folded index `(i & 255)` that `noise3` computes for the coordinate `x` on an axis of
period `P` (lines 208 and 214, before `base` is added). -/
def cell_i (x : K) (P : Int) : Int :=
  int_and ⌊fmod x (P : K)⌋ 255

/-- The folded index `(ii & 255)` of the neighbour that `noise3` computes for the coordinate
`x` on an axis of period `P` (lines 211 and 217, before `base` is added). -/
def cell_ii (x : K) (P : Int) : Int :=
  int_and (toInt (fmod (((⌊fmod x (P : K)⌋ + 1 : Int) : K)) (P : K))) 255

/-- The position inside the cell, `x - floorf(x)` (line 221). -/
def cell_frac (x : K) : K := x - (⌊x⌋ : K)

/-- The part of `noise3` from the fade curves on (lines 222-240), as a function of the six
indices and of the position inside the cell. -/
def noise3_cell (PERM : Int → Int) (GRAD3 : Int → Nat → K) (i j k ii jj kk : Int)
    (x y z : K) : K :=
  let fx := x * x * x * (x * (x * 6 - 15) + 10)
  let fy := y * y * y * (y * (y * 6 - 15) + 10)
  let fz := z * z * z * (z * (z * 6 - 15) + 10)
  let A := PERM i
  let AA := PERM (A + j)
  let AB := PERM (A + jj)
  let B := PERM ii
  let BA := PERM (B + j)
  let BB := PERM (B + jj)
  lerp fz (lerp fy (lerp fx (grad3 GRAD3 (PERM (AA + k)) x y z)
                            (grad3 GRAD3 (PERM (BA + k)) (x - 1) y z))
                   (lerp fx (grad3 GRAD3 (PERM (AB + k)) x (y - 1) z)
                            (grad3 GRAD3 (PERM (BB + k)) (x - 1) (y - 1) z)))
          (lerp fy (lerp fx (grad3 GRAD3 (PERM (AA + kk)) x y (z - 1))
                            (grad3 GRAD3 (PERM (BA + kk)) (x - 1) y (z - 1)))
                   (lerp fx (grad3 GRAD3 (PERM (AB + kk)) x (y - 1) (z - 1))
                            (grad3 GRAD3 (PERM (BB + kk)) (x - 1) (y - 1) (z - 1))))

/-- The value of `noise3` at octave `o` of `make_noise`: frequency `2 ^ o`, period
`1024 * 2 ^ o` on each axis, base 0. -/
def octave_noise (PERM : Int → Int) (GRAD3 : Int → Nat → K) (x y z : K) (o : Nat) : K :=
  noise3 PERM GRAD3 (x * 2 ^ o) (y * 2 ^ o) (z * 2 ^ o) (1024 * 2 ^ o) (1024 * 2 ^ o)
    (1024 * 2 ^ o) 0

/-- The arguments `args_two` with the frame given as a flat sequence `[1, 1, 1, 1, 1, 1]`,
whose length is 6. -/
def args_two_flat : RenderArgs ℚ := { args_two with framelen := 6 }

/-- Every `PyMem_Malloc` succeeds but the one of buffer `b`. -/
def malloc_fails_at (b : Scratch) : Scratch → Bool := fun b' => decide (b' ≠ b)

/-! ## The indices of `noise3` before folding, and its reads of the tables -/

/-- The index `i` of `noise3` before folding, `(int)floorf(fmodf(x, repeatx))` (line 208). -/
def raw_i (x : K) (P : Int) : Int := ⌊fmod x (P : K)⌋

/-- The neighbour index `ii` of `noise3` before folding, `(int)fmodf(i + 1, repeatx)`
(line 211). -/
def raw_ii (x : K) (P : Int) : Int := toInt (fmod (((raw_i x P + 1 : Int) : K)) (P : K))

/-- The non-negative (floored) modulo `x mod P` of the specification, `x - floor(x / P) * P`. -/
def floored_mod (x : K) (P : Int) : K := x - (⌊x / (P : K)⌋ : K) * (P : K)

/-- The indices at which `noise3` reads `PERM` (lines 226-240), in terms of the six indices
`i, j, k, ii, jj, kk` of lines 214-219. -/
def perm_reads_cell (PERM : Int → Int) (i j k ii jj kk : Int) : List Int :=
  let A := PERM i
  let AA := PERM (A + j)
  let AB := PERM (A + jj)
  let B := PERM ii
  let BA := PERM (B + j)
  let BB := PERM (B + jj)
  [i, A + j, A + jj, ii, B + j, B + jj,
   AA + k, BA + k, AB + k, BB + k, AA + kk, BA + kk, AB + kk, BB + kk]

/-- The rows `hash & 15` at which `grad3` reads `GRAD3` in the eight calls of `noise3`. -/
def grad_reads_cell (PERM : Int → Int) (i j k ii jj kk : Int) : List Int :=
  let A := PERM i
  let AA := PERM (A + j)
  let AB := PERM (A + jj)
  let B := PERM ii
  let BA := PERM (B + j)
  let BB := PERM (B + jj)
  [int_and (PERM (AA + k)) 15, int_and (PERM (BA + k)) 15, int_and (PERM (AB + k)) 15,
   int_and (PERM (BB + k)) 15, int_and (PERM (AA + kk)) 15, int_and (PERM (BA + kk)) 15,
   int_and (PERM (AB + kk)) 15, int_and (PERM (BB + kk)) 15]

/-- The indices at which `noise3` reads `PERM` for the point `(x, y, z)`. -/
def perm_reads (PERM : Int → Int) (x y z : K) (repeatx repeaty repeatz base : Int) :
    List Int :=
  perm_reads_cell PERM (cell_i x repeatx + base) (cell_i y repeaty + base)
    (cell_i z repeatz + base) (cell_ii x repeatx + base) (cell_ii y repeaty + base)
    (cell_ii z repeatz + base)

/-- The rows at which `noise3` reads `GRAD3` for the point `(x, y, z)`. -/
def grad_reads (PERM : Int → Int) (x y z : K) (repeatx repeaty repeatz base : Int) :
    List Int :=
  grad_reads_cell PERM (cell_i x repeatx + base) (cell_i y repeaty + base)
    (cell_i z repeatz + base) (cell_ii x repeatx + base) (cell_ii y repeaty + base)
    (cell_ii z repeatz + base)

/-! ## The fade curve and the interpolation -/

/-- The weight `t*t*t * (t * (t * 6 - 15) + 10)` that `noise3` computes on each axis
(lines 222-224). -/
def fade (t : K) : K := t * t * t * (t * (t * 6 - 15) + 10)

/-- The interpolation of `noise3` (lines 233-240): `lerp` along X, then along Y, then along
Z.  The corner `c` followed by the bits of X, Y, Z is the gradient value at that corner of
the cell. -/
def trilerp (fx fy fz c000 c100 c010 c110 c001 c101 c011 c111 : K) : K :=
  lerp fz (lerp fy (lerp fx c000 c100) (lerp fx c010 c110))
          (lerp fy (lerp fx c001 c101) (lerp fx c011 c111))

end Definitions

/-! ## The compositing loops -/

section Buffers

variable {K : Type}

theorem getElem?_zipWith3 {α β γ δ : Type} (f : α → β → γ → δ) :
    ∀ (as : List α) (bs : List β) (cs : List γ) (i : Nat),
      (List.zipWith3 f as bs cs)[i]? =
        (as[i]?).bind fun a => (bs[i]?).bind fun b => (cs[i]?).map fun c => f a b c
  | [], _, _, _ => by simp [List.zipWith3]
  | _ :: _, [], _, i => by cases i <;> simp [List.zipWith3]
  | _ :: _, _ :: _, [], i => by
    cases i with
    | zero => simp [List.zipWith3]
    | succ i =>
      simp only [List.zipWith3, List.getElem?_cons_succ, List.getElem?_nil, Option.map_none']
      cases (_ : List α)[i]? <;> simp
  | a :: as, b :: bs, c :: cs, i => by
    cases i with
    | zero => simp [List.zipWith3]
    | succ i => simpa [List.zipWith3] using getElem?_zipWith3 f as bs cs i

theorem length_zipWith3 {α β γ δ : Type} (f : α → β → γ → δ) :
    ∀ (as : List α) (bs : List β) (cs : List γ), as.length = bs.length →
      bs.length = cs.length → (List.zipWith3 f as bs cs).length = as.length
  | [], _, _, _, _ => by simp [List.zipWith3]
  | _ :: _, [], _, h, _ => by simp at h
  | _ :: _, _ :: _, [], _, h => by simp at h
  | a :: as, b :: bs, c :: cs, h1, h2 => by
    simp only [List.length_cons, add_left_inj] at h1 h2
    simp [List.zipWith3, length_zipWith3 f as bs cs h1 h2]

theorem update_px_some (noise px : List (Option K)) (idx i : Nat)
    (f : Option K → Option K → Option K) (n : Option K) (hn : noise[i]? = some n)
    (h : idx < px.length) :
    update_px noise px idx i f = some (px.set idx (f px[idx] n)) := by
  simp [update_px, hn, List.getElem?_eq_getElem h]

theorem body3_spec (f : Fin 3 → Option K → Option K → Option K)
    (noise px : List (Option K)) (k : Nat) (hk : k < noise.length)
    (hp : 3 * k + 2 < px.length) :
    ∃ px', body3 f noise px k = some px' ∧ px'.length = px.length ∧
      ∀ i (c : Fin 3), px'[3 * i + c.val]? =
        if i = k then updated f noise px i c else px[3 * i + c.val]? := by
  have hn : noise[k]? = some noise[k] := List.getElem?_eq_getElem hk
  refine ⟨((px.set (3 * k) (f 0 px[3 * k] noise[k])).set (3 * k + 1)
      (f 1 px[3 * k + 1] noise[k])).set (3 * k + 2) (f 2 px[3 * k + 2] noise[k]), ?_, by simp, ?_⟩
  · unfold body3
    rw [update_px_some noise px (3 * k) k (f 0) _ hn (by omega)]
    simp only [Option.some_bind]
    rw [update_px_some noise _ (3 * k + 1) k (f 1) _ hn (by simp; omega)]
    simp only [Option.some_bind]
    rw [update_px_some noise _ (3 * k + 2) k (f 2) _ hn (by simp; omega)]
    simp
  · intro i c
    have hc := c.isLt
    simp only [List.getElem?_set, List.length_set]
    by_cases hik : i = k
    · subst hik
      simp only [if_true, updated, hn, Option.map_some']
      obtain ⟨c, hc⟩ := c
      interval_cases c
      · simp [List.getElem?_eq_getElem (show 3 * i < px.length by omega)]
        omega
      · simp [List.getElem?_eq_getElem (show 3 * i + 1 < px.length by omega)]
        omega
      · simp [List.getElem?_eq_getElem (show 3 * i + 2 < px.length by omega), hp]
    · simp only [if_neg hik]
      rw [if_neg (by omega), if_neg (by omega), if_neg (by omega)]

theorem foldlM_body3 (f : Fin 3 → Option K → Option K → Option K)
    (noise pixels : List (Option K)) (k : Nat) (hk : k ≤ noise.length)
    (hp : 3 * k ≤ pixels.length) :
    ∃ px, (List.range k).foldlM (body3 f noise) pixels = some px ∧
      px.length = pixels.length ∧
      ∀ i (c : Fin 3), px[3 * i + c.val]? =
        if i < k then updated f noise pixels i c else pixels[3 * i + c.val]? := by
  induction k with
  | zero => exact ⟨pixels, by simp, rfl, by simp⟩
  | succ k ih =>
    obtain ⟨px, hfold, hlen, hget⟩ := ih (by omega) (by omega)
    obtain ⟨px', hb, hlen', hget'⟩ := body3_spec f noise px k (by omega) (by omega)
    refine ⟨px', ?_, by omega, ?_⟩
    · rw [List.range_succ, List.foldlM_append, hfold]
      simp [hb]
    · intro i c
      rw [hget' i c]
      by_cases hik : i = k
      · subst hik
        simp only [if_true, Nat.lt_succ_self, updated]
        rw [hget i c, if_neg (by omega)]
      · rw [if_neg hik, hget i c]
        by_cases hlt : i < k
        · rw [if_pos hlt, if_pos (by omega)]
        · rw [if_neg hlt, if_neg (by omega)]

theorem update_px_isSome (noise px : List (Option K)) (idx i : Nat)
    (f : Option K → Option K → Option K) (r : List (Option K))
    (h : update_px noise px idx i f = some r) :
    i < noise.length ∧ idx < px.length ∧ r.length = px.length := by
  unfold update_px at h
  split at h
  · rename_i n p hn hp
    cases h
    exact ⟨(List.getElem?_eq_some.mp hn).1, (List.getElem?_eq_some.mp hp).1, by simp⟩
  · cases h

theorem body3_isSome (f : Fin 3 → Option K → Option K → Option K)
    (noise px : List (Option K)) (k : Nat) (r : List (Option K))
    (h : body3 f noise px k = some r) : k < noise.length ∧ 3 * k + 2 < px.length := by
  unfold body3 at h
  cases h0 : update_px noise px (3 * k) k (f 0) with
  | none => simp [h0] at h
  | some p0 =>
    rw [h0, Option.some_bind] at h
    cases h1 : update_px noise p0 (3 * k + 1) k (f 1) with
    | none => simp [h1] at h
    | some p1 =>
      rw [h1, Option.some_bind] at h
      have a0 := update_px_isSome _ _ _ _ _ _ h0
      have a1 := update_px_isSome _ _ _ _ _ _ h1
      have a2 := update_px_isSome _ _ _ _ _ _ h
      omega

theorem foldlM_body3_isSome (f : Fin 3 → Option K → Option K → Option K)
    (noise pixels : List (Option K)) (k : Nat) (r : List (Option K))
    (h : (List.range k).foldlM (body3 f noise) pixels = some r) :
    k ≤ noise.length ∧ 3 * k ≤ pixels.length := by
  induction k generalizing r with
  | zero => simp
  | succ k ih =>
    rw [List.range_succ, List.foldlM_append] at h
    cases hk : (List.range k).foldlM (body3 f noise) pixels with
    | none => simp [hk] at h
    | some px =>
      have hb := ih px hk
      obtain ⟨px', hpx', hlen, -⟩ := foldlM_body3 f noise pixels k hb.1 hb.2
      rw [hk] at hpx'
      cases hpx'
      rw [hk] at h
      simp only [Option.bind_eq_bind, Option.some_bind, List.foldlM_cons, List.foldlM_nil] at h
      cases hbody : body3 f noise px k with
      | none => simp [hbody] at h
      | some q =>
        have := body3_isSome f noise px k q hbody
        omega

theorem mem_accesses (framelen : Nat) (a : Nat × Nat) :
    a ∈ accesses framelen ↔ a.1 < framelen ∧ 3 * a.1 ≤ a.2 ∧ a.2 ≤ 3 * a.1 + 2 := by
  obtain ⟨i, j⟩ := a
  simp only [accesses, List.mem_flatMap, List.mem_range, List.mem_cons, Prod.mk.injEq,
    List.mem_singleton, List.not_mem_nil, or_false]
  constructor
  · rintro ⟨k, hk, h | h | h⟩ <;> omega
  · rintro ⟨h1, h2, h3⟩
    exact ⟨i, h1, by omega⟩

theorem accesses_snd (framelen : Nat) :
    (accesses framelen).map Prod.snd = List.range (3 * framelen) := by
  induction framelen with
  | zero => simp [accesses]
  | succ n ih =>
    have : accesses (n + 1) = accesses n ++ [(n, 3 * n), (n, 3 * n + 1), (n, 3 * n + 2)] := by
      simp [accesses, List.range_succ]
    rw [this, List.map_append, ih]
    have h3 : 3 * (n + 1) = 3 * n + 1 + 1 + 1 := by ring
    rw [h3, List.range_succ, List.range_succ, List.range_succ]
    simp

end Buffers

section Theorems

set_option linter.unusedSectionVars false

variable {K : Type} [LinearOrderedField K] [FloorRing K]

theorem tint_body_eq (color : Fin 3 → K) (noise : List (Option K)) :
    tint_body color noise = body3 (fun c p n => dadd p (dmul n (some (color c)))) noise := rfl

theorem scale_body_eq (noise : List (Option K)) :
    scale_body noise = body3 (fun _ p n => dmul p n) noise := rfl

theorem noise_field_length (PERM : Int → Int) (GRAD3 : Int → Nat → K) (zoom : K)
    (modelX modelY modelZ : List K) (time time_const : K) (octaves : Int)
    (hxy : modelX.length = modelY.length) (hyz : modelY.length = modelZ.length) :
    (noise_field PERM GRAD3 zoom modelX modelY modelZ time time_const octaves).length =
      modelX.length := by
  simp [noise_field, length_zipWith3 _ _ _ _ (show (modelX.map fun v => v * zoom).length =
    (modelY.map fun v => v * zoom).length by simpa using hxy)
    (show (modelY.map fun v => v * zoom).length =
    (modelZ.map fun v => v * zoom).length by simpa using hyz)]

/-- The entry of the noise field for the point of index `i`. -/
theorem noise_field_getElem? (PERM : Int → Int) (GRAD3 : Int → Nat → K) (zoom : K)
    (modelX modelY modelZ : List K) (time time_const : K) (octaves : Int) (i : Nat)
    (x y z : K) (hx : modelX[i]? = some x) (hy : modelY[i]? = some y)
    (hz : modelZ[i]? = some z) :
    (noise_field PERM GRAD3 zoom modelX modelY modelZ time time_const octaves)[i]? =
      some (dadd (dmul (some 1.2)
        (make_noise PERM GRAD3 (x * zoom) (y * zoom) (z * zoom + z_offset time time_const)
          octaves)) (some (1.2 * 0.35))) := by
  simp [noise_field, getElem?_zipWith3, hx, hy, hz]

/-! ## The compositing of `py_render` -/

theorem composite_spec (color : Fin 3 → K) (noise pixels : List (Option K)) (framelen : Nat)
    (hk : framelen ≤ noise.length) (hp : 3 * framelen ≤ pixels.length) :
    ∃ px, composite color noise framelen pixels = some px ∧ px.length = pixels.length ∧
      ∀ i (c : Fin 3), px[3 * i + c.val]? =
        if i < framelen then updated (blend color) noise pixels i c
        else pixels[3 * i + c.val]? := by
  unfold composite
  by_cases hc : color 0 = 0 ∧ color 1 = 0 ∧ color 2 = 0
  · rw [if_neg (not_not.mpr hc), scale_body_eq]
    have hb : blend color = fun _ p n => dmul p n := by
      funext c p n; simp [blend, hc]
    rw [hb]
    exact foldlM_body3 _ noise pixels framelen hk hp
  · rw [if_pos hc, tint_body_eq]
    have hb : blend color = fun c p n => dadd p (dmul n (some (color c))) := by
      funext c p n; simp only [blend, if_neg hc]
    rw [hb]
    exact foldlM_body3 _ noise pixels framelen hk hp

theorem py_render_ok (PERM : Int → Int) (GRAD3 : Int → Nat → K) (malloc : Scratch → Bool)
    (a : RenderArgs K)
    (hxy : a.modelX.length = a.modelY.length) (hyz : a.modelY.length = a.modelZ.length)
    (hm : ∀ b, malloc b = true) :
    py_render PERM GRAD3 malloc a =
      (composite a.color (noise_field PERM GRAD3 a.zoom a.modelX a.modelY a.modelZ a.time
        a.time_const a.octaves) a.framelen a.pixels).map fun px => ⟨.ok (), px, []⟩ := by
  unfold py_render
  simp only [hxy, hyz, hm, ne_eq, not_true_eq_false, or_self, if_false]
  cases composite a.color (noise_field PERM GRAD3 a.zoom a.modelX a.modelY a.modelZ a.time
        a.time_const a.octaves) a.framelen a.pixels <;> simp

/-- What `py_render` does when the models have one length `N`, the frame has `N` rows holding
`3N` doubles and the allocations succeed: it returns `None`, and `pixels[3*i+c]` becomes
`blend color c p n` for its old value `p` and the field value `n` of point `i`. -/
theorem py_render_blend (PERM : Int → Int) (GRAD3 : Int → Nat → K)
    (malloc : Scratch → Bool) (a : RenderArgs K)
    (hxy : a.modelX.length = a.modelY.length) (hyz : a.modelY.length = a.modelZ.length)
    (hm : ∀ b, malloc b = true)
    (hframe : a.framelen = a.modelX.length) (hpix : a.pixels.length = 3 * a.modelX.length) :
    ∃ out, py_render PERM GRAD3 malloc a = some ⟨.ok (), out, []⟩ ∧
      out.length = a.pixels.length ∧
      ∀ i (c : Fin 3), i < a.modelX.length →
        ∃ p n, a.pixels[3 * i + c.val]? = some p ∧
          (noise_field PERM GRAD3 a.zoom a.modelX a.modelY a.modelZ a.time a.time_const
            a.octaves)[i]? = some n ∧
          out[3 * i + c.val]? = some (blend a.color c p n) := by
  have hlen := noise_field_length PERM GRAD3 a.zoom a.modelX a.modelY a.modelZ a.time
    a.time_const a.octaves hxy hyz
  obtain ⟨out, hout, hl, hget⟩ := composite_spec a.color _ a.pixels a.framelen
    (by rw [hlen, hframe]) (by rw [hframe, hpix])
  refine ⟨out, ?_, hl, ?_⟩
  · rw [py_render_ok PERM GRAD3 malloc a hxy hyz hm, hout]; rfl
  · intro i c hi
    have hc := c.isLt
    have h1 : 3 * i + c.val < a.pixels.length := by omega
    refine ⟨a.pixels[3 * i + c.val], _, List.getElem?_eq_getElem h1,
      List.getElem?_eq_getElem (by rw [hlen]; exact hi), ?_⟩
    rw [hget i c, if_pos (by omega)]
    simp [updated, List.getElem?_eq_getElem h1, List.getElem?_eq_getElem
      (show i < (noise_field PERM GRAD3 a.zoom a.modelX a.modelY a.modelZ a.time a.time_const
            a.octaves).length by rw [hlen]; exact hi)]

/-- C1. Multiplicative mode: with a black colour, models of one length `N`, a frame of `N`
rows holding `3N` doubles and successful allocations, `py_render` returns `None` and every
`pixels[3*i+c]` (`i < N`, `c < 3`) is its old value `p` multiplied by the field value `n`
of point `i`; no term is added. -/
theorem py_render_multiplicative (PERM : Int → Int) (GRAD3 : Int → Nat → K)
    (malloc : Scratch → Bool) (a : RenderArgs K)
    (hxy : a.modelX.length = a.modelY.length) (hyz : a.modelY.length = a.modelZ.length)
    (hm : ∀ b, malloc b = true)
    (hframe : a.framelen = a.modelX.length) (hpix : a.pixels.length = 3 * a.modelX.length)
    (hcolor : a.color 0 = 0 ∧ a.color 1 = 0 ∧ a.color 2 = 0) :
    ∃ out, py_render PERM GRAD3 malloc a = some ⟨.ok (), out, []⟩ ∧
      out.length = a.pixels.length ∧
      ∀ i (c : Fin 3), i < a.modelX.length →
        ∃ p n, a.pixels[3 * i + c.val]? = some p ∧
          (noise_field PERM GRAD3 a.zoom a.modelX a.modelY a.modelZ a.time a.time_const
            a.octaves)[i]? = some n ∧
          out[3 * i + c.val]? = some (dmul p n) := by
  obtain ⟨out, h1, h2, h3⟩ := py_render_blend PERM GRAD3 malloc a hxy hyz hm hframe hpix
  refine ⟨out, h1, h2, fun i c hi => ?_⟩
  obtain ⟨p, n, hp, hn, ho⟩ := h3 i c hi
  exact ⟨p, n, hp, hn, by rw [ho, blend, if_pos hcolor]⟩

/-- Witness of C1 on two points and a frame of two white pixels. -/
theorem py_render_multiplicative_witness :
    ∃ out, py_render PERM_ref GRAD3_ref malloc_ok args_two = some ⟨.ok (), out, []⟩ ∧
      out.length = args_two.pixels.length ∧
      ∀ i (c : Fin 3), i < args_two.modelX.length →
        ∃ p n, args_two.pixels[3 * i + c.val]? = some p ∧
          (noise_field PERM_ref GRAD3_ref args_two.zoom args_two.modelX args_two.modelY
            args_two.modelZ args_two.time args_two.time_const args_two.octaves)[i]? = some n ∧
          out[3 * i + c.val]? = some (dmul p n) :=
  py_render_multiplicative PERM_ref GRAD3_ref malloc_ok args_two rfl rfl (fun _ => rfl) rfl rfl
    ⟨rfl, rfl, rfl⟩

/-- C2. Additive-tint mode: with a colour that has a non-zero component, models of one
length `N`, a frame of `N` rows holding `3N` doubles and successful allocations, `py_render`
returns `None` and every `pixels[3*i+c]` (`i < N`, `c < 3`) is its old value `p` plus
`n * color[c]`, `n` being the field value of point `i`; the sum is stored as it is. -/
theorem py_render_additive (PERM : Int → Int) (GRAD3 : Int → Nat → K)
    (malloc : Scratch → Bool) (a : RenderArgs K)
    (hxy : a.modelX.length = a.modelY.length) (hyz : a.modelY.length = a.modelZ.length)
    (hm : ∀ b, malloc b = true)
    (hframe : a.framelen = a.modelX.length) (hpix : a.pixels.length = 3 * a.modelX.length)
    (hcolor : a.color 0 ≠ 0 ∨ a.color 1 ≠ 0 ∨ a.color 2 ≠ 0) :
    ∃ out, py_render PERM GRAD3 malloc a = some ⟨.ok (), out, []⟩ ∧
      out.length = a.pixels.length ∧
      ∀ i (c : Fin 3), i < a.modelX.length →
        ∃ p n, a.pixels[3 * i + c.val]? = some p ∧
          (noise_field PERM GRAD3 a.zoom a.modelX a.modelY a.modelZ a.time a.time_const
            a.octaves)[i]? = some n ∧
          out[3 * i + c.val]? = some (dadd p (dmul n (some (a.color c)))) := by
  obtain ⟨out, h1, h2, h3⟩ := py_render_blend PERM GRAD3 malloc a hxy hyz hm hframe hpix
  refine ⟨out, h1, h2, fun i c hi => ?_⟩
  obtain ⟨p, n, hp, hn, ho⟩ := h3 i c hi
  refine ⟨p, n, hp, hn, ?_⟩
  rw [ho, blend, if_neg]
  rintro ⟨h0, h1, h2⟩
  rcases hcolor with h | h | h
  · exact h h0
  · exact h h1
  · exact h h2

/-- Witness of C2 with the tint `(0, 0, 0.5)`. -/
theorem py_render_additive_witness :
    ∃ out, py_render PERM_ref GRAD3_ref malloc_ok args_tint = some ⟨.ok (), out, []⟩ ∧
      out.length = args_tint.pixels.length ∧
      ∀ i (c : Fin 3), i < args_tint.modelX.length →
        ∃ p n, args_tint.pixels[3 * i + c.val]? = some p ∧
          (noise_field PERM_ref GRAD3_ref args_tint.zoom args_tint.modelX args_tint.modelY
            args_tint.modelZ args_tint.time args_tint.time_const args_tint.octaves)[i]? =
              some n ∧
          out[3 * i + c.val]? = some (dadd p (dmul n (some (args_tint.color c)))) :=
  py_render_additive PERM_ref GRAD3_ref malloc_ok args_tint rfl rfl (fun _ => rfl) rfl rfl
    (Or.inr (Or.inr (by norm_num [args_tint])))

/-! ## Facts about the primitives -/

theorem toInt_intCast (n : Int) : toInt (n : K) = n := by
  unfold toInt
  split_ifs <;> simp

theorem fmod_zero_left (y : K) : fmod 0 y = 0 := by
  simp [fmod, toInt]

theorem z_offset_time_zero (time_const : K) : z_offset 0 time_const = 0 := by
  simp [z_offset, fmod_zero_left]

theorem make_noise_loop_one (PERM : Int → Int) (GRAD3 : Int → Nat → K) (x y z : K) :
    make_noise_loop PERM GRAD3 x y z 1 =
      { freq := 2, amp := 1 / 2, max := 1,
        total := noise3 PERM GRAD3 x y z 1024 1024 1024 0 } := by
  have h1 : (1.0 : K) = 1 := by norm_num
  have h0 : (0.0 : K) = 0 := by norm_num
  have h2 : (2.0 : K) = 2 := by norm_num
  have h5 : (0.5 : K) = 1 / 2 := by norm_num
  have hc : toInt (((1024 : Int) : K)) = 1024 := toInt_intCast _
  simp only [make_noise_loop, Function.iterate_succ, Function.iterate_zero, Function.comp,
    id, make_noise_body, h1, h0, h2, h5, mul_one, one_mul, zero_add, hc]

theorem make_noise_one (PERM : Int → Int) (GRAD3 : Int → Nat → K) (x y z : K) :
    make_noise PERM GRAD3 x y z 1 = some (noise3 PERM GRAD3 x y z 1024 1024 1024 0) := by
  simp [make_noise, make_noise_loop_one, fdiv]

theorem noise3_lattice (PERM : Int → Int) (GRAD3 : Int → Nat → K) (a b c : Int)
    (repeatx repeaty repeatz base : Int) :
    noise3 PERM GRAD3 (a : K) (b : K) (c : K) repeatx repeaty repeatz base = 0 := by
  simp [noise3, lerp, grad3]

theorem noise3_origin (PERM : Int → Int) (GRAD3 : Int → Nat → K)
    (repeatx repeaty repeatz base : Int) :
    noise3 PERM GRAD3 (0 : K) 0 0 repeatx repeaty repeatz base = 0 := by
  simpa using noise3_lattice PERM GRAD3 0 0 0 repeatx repeaty repeatz base

/-! ## Validation of the lengths -/

/-- C3. When `modelX`, `modelY` and `modelZ` do not all have the same length, `py_render`
raises the `ValueError` of the length test, with the frame as it was and no scratch buffer
allocated; when the three lengths are equal it never raises that error. -/
theorem py_render_length_mismatch (PERM : Int → Int) (GRAD3 : Int → Nat → K)
    (malloc : Scratch → Bool) (a : RenderArgs K) :
    (¬ (a.modelX.length = a.modelY.length ∧ a.modelY.length = a.modelZ.length) →
      py_render PERM GRAD3 malloc a =
        some ⟨.error .ValueError_not_the_same_length, a.pixels, []⟩) ∧
    (a.modelX.length = a.modelY.length ∧ a.modelY.length = a.modelZ.length →
      ∀ r, py_render PERM GRAD3 malloc a = some r →
        r.result ≠ .error .ValueError_not_the_same_length) := by
  constructor
  · intro h
    have h' : a.modelX.length ≠ a.modelY.length ∨ a.modelY.length ≠ a.modelZ.length := by
      by_contra hc
      push_neg at hc
      exact h hc
    simp only [py_render, if_pos h']
  · rintro ⟨hxy, hyz⟩ r hr
    unfold py_render at hr
    simp only [hxy, hyz, ne_eq, not_true_eq_false, or_self, if_false] at hr
    split_ifs at hr
    all_goals first
      | (cases hr; simp)
      | (split at hr
         · cases hr
         · cases hr; simp)

/-- Witness of C3: lengths 3, 4, 3 raise the error and leave the nine doubles of the frame;
equal lengths do not raise it. -/
theorem py_render_length_mismatch_witness :
    py_render PERM_ref GRAD3_ref malloc_ok args_mismatch =
        some ⟨.error .ValueError_not_the_same_length, args_mismatch.pixels, []⟩ ∧
    ∀ r, py_render PERM_ref GRAD3_ref malloc_ok args_two = some r →
        r.result ≠ .error .ValueError_not_the_same_length :=
  ⟨(py_render_length_mismatch PERM_ref GRAD3_ref malloc_ok args_mismatch).1 (by decide),
   (py_render_length_mismatch PERM_ref GRAD3_ref malloc_ok args_two).2 ⟨rfl, rfl⟩⟩

/-- C4. The length of the frame is never tested.  With two points and a frame of one pixel
`py_render` returns `None` after scaling the three doubles of the frame (by 0.42, the field
at a lattice point); with one point and a frame of two pixels the second pass of the loop
reads `noise[1]` outside the array. -/
theorem py_render_frame_length_unchecked :
    py_render PERM_ref GRAD3_ref malloc_ok args_short =
      some ⟨.ok (), [some 0.42, some 0.42, some 0.42], []⟩ ∧
    py_render PERM_ref GRAD3_ref malloc_ok args_long = none := by
  constructor
  · rw [py_render_ok PERM_ref GRAD3_ref malloc_ok args_short rfl rfl (fun _ => rfl)]
    have hf : noise_field PERM_ref (GRAD3_ref : Int → Nat → ℚ) args_short.zoom
        args_short.modelX args_short.modelY args_short.modelZ args_short.time
        args_short.time_const args_short.octaves = [some 0.42, some 0.42] := by
      simp [noise_field, args_short, List.zipWith3, make_noise_one, z_offset_time_zero,
        noise3_origin, dadd, dmul]
      norm_num
    rw [hf]
    simp [composite, args_short, scale_body, update_px, List.range_succ, dmul]
  · rw [py_render_ok PERM_ref GRAD3_ref malloc_ok args_long rfl rfl (fun _ => rfl)]
    have hf : noise_field PERM_ref (GRAD3_ref : Int → Nat → ℚ) args_long.zoom
        args_long.modelX args_long.modelY args_long.modelZ args_long.time
        args_long.time_const args_long.octaves = [some 0.42] := by
      simp [noise_field, args_long, List.zipWith3, make_noise_one, z_offset_time_zero,
        noise3_origin, dadd, dmul]
      norm_num
    rw [hf]
    simp [composite, args_long, scale_body, update_px, List.range_succ, dmul]

/-! ## The field of a single octave -/

/-- C8. With `octaves = 1`, `zoom = 1` and `time = 0` the Z offset is 0, the loop of
`make_noise` ends with normaliser `max = 1` and `total` the value of `noise3` (amplitude 1),
and the field value of the point `(x, y, z)` of index `i` is
`1.2 * noise3(x, y, z, 1024, 1024, 1024, 0) + 0.42`. -/
theorem noise_field_single_octave (PERM : Int → Int) (GRAD3 : Int → Nat → K)
    (modelX modelY modelZ : List K) (time_const : K) (i : Nat) (x y z : K)
    (hx : modelX[i]? = some x) (hy : modelY[i]? = some y) (hz : modelZ[i]? = some z) :
    z_offset 0 time_const = 0 ∧
    (make_noise_loop PERM GRAD3 x y z 1).max = 1 ∧
    (make_noise_loop PERM GRAD3 x y z 1).total = noise3 PERM GRAD3 x y z 1024 1024 1024 0 ∧
    (noise_field PERM GRAD3 1 modelX modelY modelZ 0 time_const 1)[i]? =
      some (some (1.2 * noise3 PERM GRAD3 x y z 1024 1024 1024 0 + 0.42)) := by
  refine ⟨z_offset_time_zero time_const, by rw [make_noise_loop_one],
    by rw [make_noise_loop_one], ?_⟩
  rw [noise_field_getElem? PERM GRAD3 1 modelX modelY modelZ 0 time_const 1 i x y z hx hy hz]
  simp only [mul_one, z_offset_time_zero, add_zero, make_noise_one, dmul, dadd,
    Option.some_bind, Option.map_some']
  norm_num

/-- Witness of C8 at the second point of `args_two`. -/
theorem noise_field_single_octave_witness :
    z_offset 0 (0 : ℚ) = 0 ∧
    (make_noise_loop PERM_ref (GRAD3_ref : Int → Nat → ℚ) 1 0 0 1).max = 1 ∧
    (make_noise_loop PERM_ref (GRAD3_ref : Int → Nat → ℚ) 1 0 0 1).total =
      noise3 PERM_ref GRAD3_ref 1 0 0 1024 1024 1024 0 ∧
    (noise_field PERM_ref (GRAD3_ref : Int → Nat → ℚ) 1 [0, 1] [0, 0] [0, 0] 0 0 1)[1]? =
      some (some ((1.2 : ℚ) * noise3 PERM_ref GRAD3_ref 1 0 0 1024 1024 1024 0 + 0.42)) :=
  noise_field_single_octave PERM_ref GRAD3_ref [0, 1] [0, 0] [0, 0] 0 1 1 0 0 rfl rfl rfl

/-! ## Bounds of the accesses of the compositing -/

/-- The compositing stays inside its arrays exactly when every access listed by `accesses`
does. -/
theorem composite_isSome_iff (color : Fin 3 → K) (noise pixels : List (Option K))
    (framelen : Nat) :
    (∃ px, composite color noise framelen pixels = some px) ↔
      ∀ p ∈ accesses framelen, p.1 < noise.length ∧ p.2 < pixels.length := by
  constructor
  · rintro ⟨px, h⟩ p hp
    have hb : framelen ≤ noise.length ∧ 3 * framelen ≤ pixels.length := by
      unfold composite at h
      split_ifs at h
      · rw [scale_body_eq] at h
        exact foldlM_body3_isSome _ _ _ _ _ h
      · rw [tint_body_eq] at h
        exact foldlM_body3_isSome _ _ _ _ _ h
    rw [mem_accesses] at hp
    omega
  · intro h
    have hb : framelen ≤ noise.length ∧ 3 * framelen ≤ pixels.length := by
      rcases Nat.eq_zero_or_pos framelen with h0 | h0
      · omega
      · have := h (framelen - 1, 3 * (framelen - 1) + 2)
          ((mem_accesses _ _).mpr ⟨by simp; omega, by simp, by simp⟩)
        simp only at this
        omega
    obtain ⟨px, hpx, -⟩ := composite_spec color noise pixels framelen hb.1 hb.2
    exact ⟨px, hpx⟩

/-- C5, amended. When the frame is a sequence of `N` rows (`framelen = N`) whose data are
`3N` doubles, `N` being the number of points, the compositing of `py_render` stays inside
its arrays in either mode: each access reads `noise` below `N` and `pixels` below `3N`, the
indices of `pixels` are `0, 1, ..., 3N-1` in this order, each once, and the call has no
undefined behaviour. -/
theorem py_render_in_bounds (PERM : Int → Int) (GRAD3 : Int → Nat → K)
    (malloc : Scratch → Bool) (a : RenderArgs K)
    (hxy : a.modelX.length = a.modelY.length) (hyz : a.modelY.length = a.modelZ.length)
    (hframe : a.framelen = a.modelX.length) (hpix : a.pixels.length = 3 * a.modelX.length) :
    (∀ p ∈ accesses a.framelen,
      p.1 < (noise_field PERM GRAD3 a.zoom a.modelX a.modelY a.modelZ a.time a.time_const
        a.octaves).length ∧ p.1 < a.modelX.length ∧ p.2 < a.pixels.length) ∧
    (accesses a.framelen).map Prod.snd = List.range (3 * a.modelX.length) ∧
    ∃ r, py_render PERM GRAD3 malloc a = some r := by
  have hlen := noise_field_length PERM GRAD3 a.zoom a.modelX a.modelY a.modelZ a.time
    a.time_const a.octaves hxy hyz
  refine ⟨?_, by rw [accesses_snd, hframe], ?_⟩
  · intro p hp
    rw [mem_accesses] at hp
    omega
  · obtain ⟨px, hpx, -⟩ := composite_spec a.color (noise_field PERM GRAD3 a.zoom a.modelX
      a.modelY a.modelZ a.time a.time_const a.octaves) a.pixels a.framelen
      (by rw [hlen, hframe]) (by rw [hframe, hpix])
    unfold py_render
    simp only [hxy, hyz, ne_eq, not_true_eq_false, or_self, if_false, hpx]
    split_ifs <;> exact ⟨_, rfl⟩

/-- Witness of C5 amended, on two points and a frame of two rows. -/
theorem py_render_in_bounds_witness :
    (∀ p ∈ accesses args_two.framelen,
      p.1 < (noise_field PERM_ref GRAD3_ref args_two.zoom args_two.modelX args_two.modelY
        args_two.modelZ args_two.time args_two.time_const args_two.octaves).length ∧
      p.1 < args_two.modelX.length ∧ p.2 < args_two.pixels.length) ∧
    (accesses args_two.framelen).map Prod.snd = List.range (3 * args_two.modelX.length) ∧
    ∃ r, py_render PERM_ref GRAD3_ref malloc_ok args_two = some r :=
  py_render_in_bounds PERM_ref GRAD3_ref malloc_ok args_two rfl rfl rfl rfl

/-- C5 as stated fails: a frame that is a flat sequence of exactly `3N` doubles (`N = 1`) has
length 3, so the loop makes three passes; the second one reads `noise[1]` and `pixels[3]`,
both outside their arrays, and the call has undefined behaviour. -/
theorem py_render_flat_frame_out_of_bounds :
    args_flat.pixels.length = 3 * args_flat.modelX.length ∧
    args_flat.framelen = args_flat.pixels.length ∧
    (1, 3) ∈ accesses args_flat.framelen ∧
    ¬ (1 < args_flat.modelX.length) ∧ ¬ (3 < args_flat.pixels.length) ∧
    py_render PERM_ref GRAD3_ref malloc_ok args_flat = none := by
  refine ⟨rfl, rfl, ?_, by decide, by decide, ?_⟩
  · rw [mem_accesses]
    simp [args_flat]
  · rw [py_render_ok PERM_ref GRAD3_ref malloc_ok args_flat rfl rfl (fun _ => rfl)]
    have hf : noise_field PERM_ref (GRAD3_ref : Int → Nat → ℚ) args_flat.zoom
        args_flat.modelX args_flat.modelY args_flat.modelZ args_flat.time
        args_flat.time_const args_flat.octaves = [some 0.42] := by
      simp [noise_field, args_flat, List.zipWith3, make_noise_one, z_offset_time_zero,
        noise3_origin, dadd, dmul]
      norm_num
    rw [hf]
    simp [composite, args_flat, scale_body, update_px, List.range_succ, dmul]

/-! ## Octave counts below one -/

theorem make_noise_nonpos (PERM : Int → Int) (GRAD3 : Int → Nat → K) (x y z : K)
    (octaves : Int) (h : octaves < 1) :
    (make_noise_loop PERM GRAD3 x y z octaves.toNat).total = 0 ∧
    (make_noise_loop PERM GRAD3 x y z octaves.toNat).max = 0 ∧
    make_noise PERM GRAD3 x y z octaves = none := by
  have h0 : octaves.toNat = 0 := by omega
  have hz : (0.0 : K) = 0 := by norm_num
  simp [make_noise, make_noise_loop, h0, fdiv, hz]

/-- C6. No octave count is rejected.  With `octaves = 0` the loop of `make_noise` makes no
pass, `total` and `max` are both 0 and the quotient is not a number; `py_render` raises
nothing, returns `None` and has stored that NaN in the three doubles of the pixel. -/
theorem py_render_octaves_zero :
    (make_noise_loop PERM_ref (GRAD3_ref : Int → Nat → ℚ) 0 0 0 (0 : Int).toNat).total = 0 ∧
    (make_noise_loop PERM_ref (GRAD3_ref : Int → Nat → ℚ) 0 0 0 (0 : Int).toNat).max = 0 ∧
    make_noise PERM_ref (GRAD3_ref : Int → Nat → ℚ) 0 0 0 0 = none ∧
    py_render PERM_ref GRAD3_ref malloc_ok args_no_octave =
      some ⟨.ok (), [none, none, none], []⟩ := by
  obtain ⟨h1, h2, h3⟩ := make_noise_nonpos PERM_ref (GRAD3_ref : Int → Nat → ℚ) 0 0 0 0
    (by decide)
  refine ⟨h1, h2, h3, ?_⟩
  rw [py_render_ok PERM_ref GRAD3_ref malloc_ok args_no_octave rfl rfl (fun _ => rfl)]
  have hf : noise_field PERM_ref (GRAD3_ref : Int → Nat → ℚ) args_no_octave.zoom
      args_no_octave.modelX args_no_octave.modelY args_no_octave.modelZ args_no_octave.time
      args_no_octave.time_const args_no_octave.octaves = [none] := by
    simp [noise_field, args_no_octave, List.zipWith3, z_offset_time_zero, h3, dadd, dmul]
  rw [hf]
  simp [composite, args_no_octave, scale_body, update_px, List.range_succ, dmul]

/-! ## The indices of `noise3` -/

theorem int_and_255 (i : Int) : int_and i 255 = i % 256 := by
  have hb : bits32 255 = 2 ^ 8 - 1 := by decide
  have hlt : bits32 i % 2 ^ 8 < 2 ^ 31 := lt_of_lt_of_le (Nat.mod_lt _ (by norm_num)) (by norm_num)
  unfold int_and
  rw [hb, Nat.and_pow_two_sub_one_eq_mod, ofBits32, if_pos hlt]
  unfold bits32
  rw [Int.natCast_mod, Int.toNat_of_nonneg (Int.emod_nonneg _ (by norm_num))]
  exact Int.emod_emod_of_dvd i (by norm_num)

/-- The index `i` of `noise3` before folding is `⌊x⌋` minus a multiple of the period. -/
theorem floor_fmod (x : K) (P : Int) :
    ⌊fmod x (P : K)⌋ = ⌊x⌋ - toInt (x / (P : K)) * P := by
  unfold fmod
  rw [← Int.cast_mul, Int.floor_sub_int]

/-- The index `ii` of `noise3` before folding is `i + 1` minus a multiple of the period. -/
theorem toInt_fmod_intCast (n P : Int) :
    toInt (fmod (n : K) (P : K)) = n - toInt ((n : K) / (P : K)) * P := by
  unfold fmod
  rw [← Int.cast_mul, ← Int.cast_sub, toInt_intCast]

/-- The function `noise3` is `noise3_cell` at the folded indices and the position inside the
cell. -/
theorem noise3_eq_cell (PERM : Int → Int) (GRAD3 : Int → Nat → K) (x y z : K)
    (repeatx repeaty repeatz base : Int) :
    noise3 PERM GRAD3 x y z repeatx repeaty repeatz base =
      noise3_cell PERM GRAD3 (cell_i x repeatx + base) (cell_i y repeaty + base)
        (cell_i z repeatz + base) (cell_ii x repeatx + base) (cell_ii y repeaty + base)
        (cell_ii z repeatz + base) (cell_frac x) (cell_frac y) (cell_frac z) := rfl

/-- When 256 divides the period, the folded indices are `⌊x⌋ mod 256` and
`(⌊x⌋ + 1) mod 256`, whatever the sign of `x`. -/
theorem folded_of_dvd (x : K) (P : Int) (hP : 256 ∣ P) :
    cell_i x P = ⌊x⌋ % 256 ∧ cell_ii x P = (⌊x⌋ + 1) % 256 := by
  obtain ⟨q, rfl⟩ := hP
  unfold cell_i cell_ii
  constructor
  · rw [int_and_255, floor_fmod]
    rw [show ⌊x⌋ - toInt (x / ((256 * q : Int) : K)) * (256 * q) =
      ⌊x⌋ + 256 * (-(toInt (x / ((256 * q : Int) : K)) * q)) by ring]
    exact Int.add_mul_emod_self_left _ _ _
  · rw [int_and_255, toInt_fmod_intCast, floor_fmod]
    generalize toInt (x / ((256 * q : Int) : K)) = s
    generalize toInt ((((⌊x⌋ - s * (256 * q) + 1 : Int)) : K) / ((256 * q : Int) : K)) = t
    rw [show ⌊x⌋ - s * (256 * q) + 1 - t * (256 * q) =
      (⌊x⌋ + 1) + 256 * (-(s * q) - t * q) by ring]
    exact Int.add_mul_emod_self_left _ _ _

theorem cell_frac_add_intCast (x : K) (m : Int) : cell_frac (x + (m : K)) = cell_frac x := by
  unfold cell_frac
  rw [Int.floor_add_int]
  push_cast
  ring

theorem cell_add_of_dvd (x : K) (P m : Int) (hP : 256 ∣ P) :
    cell_i (x + ((256 * m : Int) : K)) P = cell_i x P ∧
    cell_ii (x + ((256 * m : Int) : K)) P = cell_ii x P := by
  obtain ⟨h1, h2⟩ := folded_of_dvd x P hP
  obtain ⟨h1', h2'⟩ := folded_of_dvd (x + ((256 * m : Int) : K)) P hP
  constructor
  · rw [h1, h1', Int.floor_add_int]
    exact Int.add_mul_emod_self_left _ _ _
  · rw [h2, h2', Int.floor_add_int]
    rw [show ⌊x⌋ + 256 * m + 1 = (⌊x⌋ + 1) + 256 * m by ring]
    exact Int.add_mul_emod_self_left _ _ _

theorem fmod_add_period_of_nonneg (x : K) (P : Int) (hP : 0 < P) (hx : 0 ≤ x) :
    fmod (x + (P : K)) (P : K) = fmod x (P : K) := by
  have hPK : (0 : K) < (P : K) := by exact_mod_cast hP
  have h1 : 0 ≤ x / (P : K) := div_nonneg hx hPK.le
  have h2 : (x + (P : K)) / (P : K) = x / (P : K) + ((1 : Int) : K) := by
    field_simp
  have h3 : 0 ≤ x / (P : K) + ((1 : Int) : K) := by
    have : (0 : K) ≤ ((1 : Int) : K) := by norm_num
    linarith
  unfold fmod
  rw [h2]
  unfold toInt
  rw [if_pos h1, if_pos h3, Int.floor_add_int]
  push_cast
  ring

theorem cell_add_period_of_nonneg (x : K) (P : Int) (hP : 0 < P) (hx : 0 ≤ x) :
    cell_i (x + (P : K)) P = cell_i x P ∧ cell_ii (x + (P : K)) P = cell_ii x P := by
  unfold cell_i cell_ii
  rw [fmod_add_period_of_nonneg x P hP hx]
  exact ⟨rfl, rfl⟩

/-- Periodicity of `noise3` along X when 256 divides the period or `x` is not negative. -/
theorem noise3_add_period_x (PERM : Int → Int) (GRAD3 : Int → Nat → K) (x y z : K)
    (P ry rz base : Int) (hP : 1 ≤ P) (h : 0 ≤ x ∨ 256 ∣ P) :
    noise3 PERM GRAD3 (x + (P : K)) y z P ry rz base = noise3 PERM GRAD3 x y z P ry rz base := by
  rw [noise3_eq_cell, noise3_eq_cell, cell_frac_add_intCast]
  rcases h with h | h
  · obtain ⟨h1, h2⟩ := cell_add_period_of_nonneg x P (by omega) h
    rw [h1, h2]
  · obtain ⟨q, rfl⟩ := h
    obtain ⟨h1, h2⟩ := cell_add_of_dvd x (256 * q) q ⟨q, rfl⟩
    rw [h1, h2]

/-- Periodicity of `noise3` along Z, by multiples of 256, when 256 divides the period. -/
theorem noise3_add_z (PERM : Int → Int) (GRAD3 : Int → Nat → K) (x y z : K)
    (rx ry rz base m : Int) (h : 256 ∣ rz) :
    noise3 PERM GRAD3 x y (z + ((256 * m : Int) : K)) rx ry rz base =
      noise3 PERM GRAD3 x y z rx ry rz base := by
  rw [noise3_eq_cell, noise3_eq_cell, cell_frac_add_intCast]
  obtain ⟨h1, h2⟩ := cell_add_of_dvd z rz m h
  rw [h1, h2]

theorem cell_neg_half :
    cell_i (-1 / 2 : ℚ) 1 = 255 ∧ cell_ii (-1 / 2 : ℚ) 1 = 0 ∧ cell_frac (-1 / 2 : ℚ) = 1 / 2 := by
  have hc : ⌈(-1 / 2 : ℚ)⌉ = 0 := by rw [Int.ceil_eq_iff]; norm_num
  have hf : ⌊(-1 / 2 : ℚ)⌋ = -1 := by rw [Int.floor_eq_iff]; norm_num
  have ht : toInt (-1 / 2 : ℚ) = 0 := by
    unfold toInt; rw [if_neg (by norm_num), hc]
  have hm : fmod (-1 / 2 : ℚ) ((1 : Int) : ℚ) = -1 / 2 := by
    unfold fmod; rw [Int.cast_one, div_one, ht]; norm_num
  refine ⟨?_, ?_, ?_⟩
  · unfold cell_i; rw [hm, hf, int_and_255]; decide
  · unfold cell_ii; rw [hm, hf, toInt_fmod_intCast, int_and_255]
    norm_num [toInt]
  · unfold cell_frac; rw [hf]; norm_num

theorem cell_pos_half :
    cell_i (-1 / 2 + ((1 : Int) : ℚ)) 1 = 0 ∧ cell_ii (-1 / 2 + ((1 : Int) : ℚ)) 1 = 0 ∧
      cell_frac (-1 / 2 + ((1 : Int) : ℚ)) = 1 / 2 := by
  have hx : (-1 / 2 + ((1 : Int) : ℚ)) = 1 / 2 := by norm_num
  have hf : ⌊(1 / 2 : ℚ)⌋ = 0 := by rw [Int.floor_eq_iff]; norm_num
  have ht : toInt (1 / 2 : ℚ) = 0 := by
    unfold toInt; rw [if_pos (by norm_num), hf]
  have hm : fmod (1 / 2 : ℚ) ((1 : Int) : ℚ) = 1 / 2 := by
    unfold fmod; rw [Int.cast_one, div_one, ht]; norm_num
  rw [hx]
  refine ⟨?_, ?_, ?_⟩
  · unfold cell_i; rw [hm, hf, int_and_255]; decide
  · unfold cell_ii; rw [hm, hf, toInt_fmod_intCast, int_and_255]
    norm_num [toInt]
  · unfold cell_frac; rw [hf]; norm_num

theorem cell_zero (P : Int) :
    cell_i (0 : ℚ) P = 0 ∧ cell_ii (0 : ℚ) 1 = 0 ∧ cell_frac (0 : ℚ) = 0 := by
  refine ⟨?_, ?_, ?_⟩
  · unfold cell_i; rw [fmod_zero_left, Int.floor_zero, int_and_255]; decide
  · unfold cell_ii; rw [fmod_zero_left, Int.floor_zero, toInt_fmod_intCast, int_and_255]
    norm_num [toInt]
  · unfold cell_frac; simp

/-! ## Periodicity of `noise3` -/

/-- On the line `y = z = 0` inside a cell the interpolation keeps the two corners of the X
edge only. -/
theorem noise3_cell_axis (PERM : Int → Int) (GRAD3 : Int → Nat → K) (i j k ii jj kk : Int)
    (u : K) :
    noise3_cell PERM GRAD3 i j k ii jj kk u 0 0 =
      lerp (u * u * u * (u * (u * 6 - 15) + 10))
        (u * GRAD3 (int_and (PERM (PERM (PERM i + j) + k)) 15) 0)
        ((u - 1) * GRAD3 (int_and (PERM (PERM (PERM ii + j) + k)) 15) 0) := by
  simp [noise3_cell, lerp, grad3]

theorem noise3_neg_half :
    noise3 PERM_ref (GRAD3_ref : Int → Nat → ℚ) (-1 / 2) 0 0 1 1 1 0 = -1 / 4 := by
  obtain ⟨h1, h2, h3⟩ := cell_neg_half
  obtain ⟨z1, z2, z3⟩ := cell_zero 1
  rw [noise3_eq_cell, h1, h2, h3, z1, z2, z3]
  simp only [add_zero]
  rw [noise3_cell_axis]
  have e1 : int_and (PERM_ref (PERM_ref (PERM_ref 255 + 0) + 0)) 15 = 14 := by decide
  have e2 : int_and (PERM_ref (PERM_ref (PERM_ref 0 + 0) + 0)) 15 = 4 := by decide
  have g1 : (GRAD3_ref 14 0 : ℚ) = 0 := by simp [GRAD3_ref, gradTable]
  have g2 : (GRAD3_ref 4 0 : ℚ) = 1 := by simp [GRAD3_ref, gradTable]
  rw [e1, e2, g1, g2]
  norm_num [lerp]

theorem noise3_pos_half :
    noise3 PERM_ref (GRAD3_ref : Int → Nat → ℚ) (-1 / 2 + ((1 : Int) : ℚ)) 0 0 1 1 1 0 = 0 := by
  obtain ⟨h1, h2, h3⟩ := cell_pos_half
  obtain ⟨z1, z2, z3⟩ := cell_zero 1
  rw [noise3_eq_cell, h1, h2, h3, z1, z2, z3]
  simp only [add_zero]
  rw [noise3_cell_axis]
  simp only [lerp]
  ring

/-- C7, amended. For every period `P ≥ 1` and every point with `x ≥ 0`, and for every point
when 256 divides `P`, `noise3(x + P, y, z, P, P, P, 0) = noise3(x, y, z, P, P, P, 0)`. -/
theorem noise3_periodic_x (PERM : Int → Int) (GRAD3 : Int → Nat → K) (x y z : K) (P : Int)
    (hP : 1 ≤ P) (h : 0 ≤ x ∨ 256 ∣ P) :
    noise3 PERM GRAD3 (x + (P : K)) y z P P P 0 = noise3 PERM GRAD3 x y z P P P 0 :=
  noise3_add_period_x PERM GRAD3 x y z P P P 0 hP h

/-- Witness of C7 amended: period 3 at `x = 1/2`. -/
theorem noise3_periodic_x_witness :
    (1 : Int) ≤ 3 ∧ ((0 : ℚ) ≤ 1 / 2 ∨ (256 : Int) ∣ 3) ∧
    noise3 PERM_ref (GRAD3_ref : Int → Nat → ℚ) (1 / 2 + ((3 : Int) : ℚ)) 0 0 3 3 3 0 =
      noise3 PERM_ref GRAD3_ref (1 / 2) 0 0 3 3 3 0 :=
  ⟨by decide, Or.inl (by norm_num),
    noise3_periodic_x PERM_ref GRAD3_ref (1 / 2) 0 0 3 (by decide) (Or.inl (by norm_num))⟩

/-- C7 as stated fails at a negative coordinate: with period 1 and the reference tables,
`noise3(-1/2, 0, 0, 1, 1, 1, 0) = -1/4` while `noise3(-1/2 + 1, 0, 0, 1, 1, 1, 0) = 0`
(`fmodf(-0.5, 1)` is `-0.5`, whose floor `-1` folds to 255 and not to 0). -/
theorem noise3_not_periodic_negative :
    (1 : Int) ≤ 1 ∧
    noise3 PERM_ref (GRAD3_ref : Int → Nat → ℚ) (-1 / 2) 0 0 1 1 1 0 = -1 / 4 ∧
    noise3 PERM_ref (GRAD3_ref : Int → Nat → ℚ) (-1 / 2 + ((1 : Int) : ℚ)) 0 0 1 1 1 0 = 0 ∧
    noise3 PERM_ref (GRAD3_ref : Int → Nat → ℚ) (-1 / 2 + ((1 : Int) : ℚ)) 0 0 1 1 1 0 ≠
      noise3 PERM_ref GRAD3_ref (-1 / 2) 0 0 1 1 1 0 := by
  refine ⟨le_refl _, noise3_neg_half, noise3_pos_half, ?_⟩
  rw [noise3_neg_half, noise3_pos_half]
  norm_num

/-! ## The octaves of `make_noise` -/

/-- The locals of `make_noise` after `n` passes: `freq = 2 ^ n`, `amp = (1/2) ^ n`, `max` the
sum of the amplitudes and `total` the sum of the weighted octaves. -/
theorem make_noise_loop_eq (PERM : Int → Int) (GRAD3 : Int → Nat → K) (x y z : K) (n : Nat) :
    make_noise_loop PERM GRAD3 x y z n =
      { freq := 2 ^ n, amp := (1 / 2) ^ n,
        max := ∑ o in Finset.range n, (1 / 2 : K) ^ o,
        total := ∑ o in Finset.range n, octave_noise PERM GRAD3 x y z o * (1 / 2 : K) ^ o } := by
  induction n with
  | zero =>
    have h1 : (1.0 : K) = 1 := by norm_num
    have h0 : (0.0 : K) = 0 := by norm_num
    simp [make_noise_loop, h1, h0]
  | succ n ih =>
    have h2 : (2.0 : K) = 2 := by norm_num
    have h5 : (0.5 : K) = 1 / 2 := by norm_num
    have hc : toInt (((1024 : Int) : K) * 2 ^ n) = 1024 * 2 ^ n := by
      have : ((1024 : Int) : K) * 2 ^ n = ((1024 * 2 ^ n : Int) : K) := by push_cast; ring
      rw [this, toInt_intCast]
    unfold make_noise_loop at ih ⊢
    rw [Function.iterate_succ_apply', ih]
    simp only [make_noise_body, h2, h5, hc, Finset.sum_range_succ, octave_noise, pow_succ]



theorem amp_sum_pos (n : Nat) (h : 1 ≤ n) : 0 < ∑ o in Finset.range n, (1 / 2 : K) ^ o := by
  apply Finset.sum_pos
  · intro o _
    positivity
  · exact ⟨0, Finset.mem_range.mpr (by omega)⟩

theorem make_noise_eq (PERM : Int → Int) (GRAD3 : Int → Nat → K) (x y z : K) (n : Nat)
    (h : 1 ≤ n) :
    make_noise PERM GRAD3 x y z (n : Int) =
      some ((∑ o in Finset.range n, octave_noise PERM GRAD3 x y z o * (1 / 2 : K) ^ o) /
        (∑ o in Finset.range n, (1 / 2 : K) ^ o)) := by
  unfold make_noise
  simp only [Int.toNat_ofNat, make_noise_loop_eq, fdiv]
  rw [if_neg (amp_sum_pos n h).ne']

/-- C9. For `1 ≤ n ≤ 16`, `make_noise` returns the sum over the octaves `o < n` of
`0.5 ^ o` times `noise3` at frequency `2 ^ o`, divided by the sum of the `0.5 ^ o`; when every
octave value lies in `[-1, 1]`, so does the result. -/
theorem make_noise_normalised (PERM : Int → Int) (GRAD3 : Int → Nat → K) (x y z : K) (n : Nat)
    (h1 : 1 ≤ n) (_h16 : n ≤ 16) :
    make_noise PERM GRAD3 x y z (n : Int) =
      some ((∑ o in Finset.range n, (1 / 2 : K) ^ o * octave_noise PERM GRAD3 x y z o) /
        (∑ o in Finset.range n, (1 / 2 : K) ^ o)) ∧
    ((∀ o, o < n → -1 ≤ octave_noise PERM GRAD3 x y z o ∧
        octave_noise PERM GRAD3 x y z o ≤ 1) →
      ∃ v, make_noise PERM GRAD3 x y z (n : Int) = some v ∧ -1 ≤ v ∧ v ≤ 1) := by
  have hpos : 0 < ∑ o in Finset.range n, (1 / 2 : K) ^ o := amp_sum_pos n h1
  have heq : make_noise PERM GRAD3 x y z (n : Int) =
      some ((∑ o in Finset.range n, (1 / 2 : K) ^ o * octave_noise PERM GRAD3 x y z o) /
        (∑ o in Finset.range n, (1 / 2 : K) ^ o)) := by
    rw [make_noise_eq PERM GRAD3 x y z n h1]
    congr 2
    exact Finset.sum_congr rfl fun o _ => mul_comm _ _
  refine ⟨heq, fun hb => ⟨_, heq, ?_, ?_⟩⟩
  · rw [le_div_iff₀ hpos, neg_one_mul, ← Finset.sum_neg_distrib]
    apply Finset.sum_le_sum
    intro o ho
    have hp : (0 : K) ≤ (1 / 2) ^ o := by positivity
    have := (hb o (Finset.mem_range.mp ho)).1
    nlinarith
  · rw [div_le_one hpos]
    apply Finset.sum_le_sum
    intro o ho
    have hp : (0 : K) ≤ (1 / 2) ^ o := by positivity
    have := (hb o (Finset.mem_range.mp ho)).2
    nlinarith



theorem octave_noise_origin (PERM : Int → Int) (GRAD3 : Int → Nat → K) (o : Nat) :
    octave_noise PERM GRAD3 0 0 0 o = 0 := by
  unfold octave_noise
  rw [zero_mul]
  exact noise3_origin PERM GRAD3 _ _ _ _

theorem octave_noise_neg_half :
    octave_noise PERM_ref (GRAD3_ref : Int → Nat → ℚ) (-1 / 2) 0 0 0 = -1 / 4 := by
  have hf : ⌊(-1 / 2 : ℚ)⌋ = -1 := by rw [Int.floor_eq_iff]; norm_num
  obtain ⟨h1, h2⟩ := folded_of_dvd (-1 / 2 : ℚ) 1024 ⟨4, by norm_num⟩
  obtain ⟨z1, z2⟩ := folded_of_dvd (0 : ℚ) 1024 ⟨4, by norm_num⟩
  rw [hf] at h1 h2
  rw [Int.floor_zero] at z1 z2
  have h3 : cell_frac (-1 / 2 : ℚ) = 1 / 2 := cell_neg_half.2.2
  have z3 : cell_frac (0 : ℚ) = 0 := by simp [cell_frac]
  unfold octave_noise
  simp only [pow_zero, mul_one]
  rw [noise3_eq_cell, h1, h2, h3, z1, z2, z3, noise3_cell_axis]
  have e1 : int_and (PERM_ref (PERM_ref (PERM_ref (-1 % 256 + 0) + (0 % 256 + 0)) +
      (0 % 256 + 0))) 15 = 14 := by decide
  have e2 : int_and (PERM_ref (PERM_ref (PERM_ref ((-1 + 1) % 256 + 0) + (0 % 256 + 0)) +
      (0 % 256 + 0))) 15 = 4 := by decide
  have g1 : (GRAD3_ref 14 0 : ℚ) = 0 := by simp [GRAD3_ref, gradTable]
  have g2 : (GRAD3_ref 4 0 : ℚ) = 1 := by simp [GRAD3_ref, gradTable]
  rw [e1, e2, g1, g2]
  norm_num [lerp]

/-- Witness of C9: one octave at `(-1/2, 0, 0)`, where `noise3` is `-1/4`. -/
theorem make_noise_normalised_witness :
    1 ≤ 1 ∧ 1 ≤ 16 ∧
    make_noise PERM_ref (GRAD3_ref : Int → Nat → ℚ) (-1 / 2) 0 0 ((1 : Nat) : Int) =
      some ((∑ o in Finset.range 1,
          (1 / 2 : ℚ) ^ o * octave_noise PERM_ref GRAD3_ref (-1 / 2) 0 0 o) /
        (∑ o in Finset.range 1, (1 / 2 : ℚ) ^ o)) ∧
    ∃ v : ℚ, make_noise PERM_ref GRAD3_ref (-1 / 2) 0 0 ((1 : Nat) : Int) = some v ∧
      -1 ≤ v ∧ v ≤ 1 :=
  ⟨by decide, by decide,
    (make_noise_normalised PERM_ref GRAD3_ref (-1 / 2) 0 0 1 (by decide) (by decide)).1,
    (make_noise_normalised PERM_ref GRAD3_ref (-1 / 2) 0 0 1 (by decide) (by decide)).2
      (fun o ho => by
        obtain rfl : o = 0 := by omega
        rw [octave_noise_neg_half]
        norm_num)⟩

/-! ## The animation loop -/

/-- Shifting Z by a multiple of 1024 changes no octave: the shift is a multiple of 256 at
every frequency and 256 divides every period `1024 * 2 ^ o`. -/
theorem octave_noise_add_z (PERM : Int → Int) (GRAD3 : Int → Nat → K) (x y z : K) (m : Int)
    (o : Nat) :
    octave_noise PERM GRAD3 x y (z + ((1024 * m : Int) : K)) o =
      octave_noise PERM GRAD3 x y z o := by
  unfold octave_noise
  have h : (z + ((1024 * m : Int) : K)) * 2 ^ o =
      z * 2 ^ o + ((256 * (4 * m * 2 ^ o) : Int) : K) := by
    push_cast; ring
  rw [h]
  exact noise3_add_z PERM GRAD3 _ _ _ _ _ _ 0 _ ⟨4 * 2 ^ o, by ring⟩

theorem make_noise_add_z (PERM : Int → Int) (GRAD3 : Int → Nat → K) (x y z : K) (m : Int)
    (octaves : Int) :
    make_noise PERM GRAD3 x y (z + ((1024 * m : Int) : K)) octaves =
      make_noise PERM GRAD3 x y z octaves := by
  unfold make_noise
  simp only [make_noise_loop_eq, octave_noise_add_z]

/-- One more period of time moves the Z offset by a multiple of 1024. -/
theorem z_offset_add_period (time time_const : K) (h : time_const ≠ 0) :
    ∃ m : Int, z_offset (time + 1024 / time_const) time_const =
      z_offset time time_const + ((1024 * m : Int) : K) := by
  have h1 : (1024.0 : K) = 1024 := by norm_num
  have h2 : (time + 1024 / time_const) * time_const = time * time_const + 1024 := by
    field_simp
  refine ⟨1 + toInt (time * time_const / 1024) - toInt ((time * time_const + 1024) / 1024), ?_⟩
  unfold z_offset fmod
  rw [h1, h2]
  push_cast
  ring

/-- C10. For `time_const ≠ 0` (and any octave count, any points), the noise field of
`py_render` at time `t + 1024 / time_const` is the field at time `t`. -/
theorem noise_field_time_periodic (PERM : Int → Int) (GRAD3 : Int → Nat → K) (zoom : K)
    (modelX modelY modelZ : List K) (time time_const : K) (octaves : Int)
    (h : time_const ≠ 0) :
    noise_field PERM GRAD3 zoom modelX modelY modelZ (time + 1024 / time_const) time_const
        octaves =
      noise_field PERM GRAD3 zoom modelX modelY modelZ time time_const octaves := by
  obtain ⟨m, hm⟩ := z_offset_add_period time time_const h
  unfold noise_field
  simp only [hm, ← add_assoc, make_noise_add_z]

/-- Witness of C10: `time_const = 2`, a negative time and three octaves; the period is 512. -/
theorem noise_field_time_periodic_witness :
    (2 : ℚ) ≠ 0 ∧
    noise_field PERM_ref (GRAD3_ref : Int → Nat → ℚ) 1 [1 / 2] [0] [0] (-300 + 1024 / 2) 2 3 =
      noise_field PERM_ref GRAD3_ref 1 [1 / 2] [0] [0] (-300) 2 3 :=
  ⟨by norm_num,
    noise_field_time_periodic PERM_ref GRAD3_ref 1 [1 / 2] [0] [0] (-300) 2 3 (by norm_num)⟩

/-! ## The golden scenario -/

/-- The noise field of `args_two`, whatever the tables. -/
theorem noise_field_args_two (PERM : Int → Int) (GRAD3 : Int → Nat → ℚ) :
    noise_field PERM GRAD3 args_two.zoom args_two.modelX args_two.modelY args_two.modelZ
        args_two.time args_two.time_const args_two.octaves =
      [some (1.2 * noise3 PERM GRAD3 0 0 0 1024 1024 1024 0 + 0.42),
       some (1.2 * noise3 PERM GRAD3 1 0 0 1024 1024 1024 0 + 0.42)] := by
  simp only [noise_field, args_two, List.map, List.zipWith3, make_noise_one,
    z_offset_time_zero, mul_one, add_zero, dadd, dmul, Option.some_bind, Option.map_some']
  norm_num

/-- C11, amended. With `modelX=[0,1]`, `modelY=[0,0]`, `modelZ=[0,0]`, `zoom=1`, `time=0`,
`timeConst=0`, `octaves=1`, the default colour and the frame `[[1,1,1],[1,1,1]]` (two rows),
`py_render` returns `None`; the first triple is `1.2*noise3(0,0,0,1024,1024,1024,0)+0.42` in
each channel and the second `1.2*noise3(1,0,0,1024,1024,1024,0)+0.42`, both of which are
0.42 because `noise3` vanishes at lattice points. -/
theorem py_render_golden (PERM : Int → Int) (GRAD3 : Int → Nat → ℚ) :
    py_render PERM GRAD3 malloc_ok args_two =
      some ⟨.ok (),
        [some (1.2 * noise3 PERM GRAD3 0 0 0 1024 1024 1024 0 + 0.42),
         some (1.2 * noise3 PERM GRAD3 0 0 0 1024 1024 1024 0 + 0.42),
         some (1.2 * noise3 PERM GRAD3 0 0 0 1024 1024 1024 0 + 0.42),
         some (1.2 * noise3 PERM GRAD3 1 0 0 1024 1024 1024 0 + 0.42),
         some (1.2 * noise3 PERM GRAD3 1 0 0 1024 1024 1024 0 + 0.42),
         some (1.2 * noise3 PERM GRAD3 1 0 0 1024 1024 1024 0 + 0.42)], []⟩ ∧
    (1.2 * noise3 PERM GRAD3 0 0 0 1024 1024 1024 0 + 0.42 : ℚ) = 0.42 ∧
    (1.2 * noise3 PERM GRAD3 1 0 0 1024 1024 1024 0 + 0.42 : ℚ) = 0.42 := by
  have h1 : noise3 PERM GRAD3 (1 : ℚ) 0 0 1024 1024 1024 0 = 0 := by
    simpa using noise3_lattice PERM GRAD3 1 0 0 1024 1024 1024 0
  refine ⟨?_, by rw [noise3_origin]; norm_num, by rw [h1]; norm_num⟩
  rw [py_render_ok PERM GRAD3 malloc_ok args_two rfl rfl (fun _ => rfl), noise_field_args_two]
  simp [composite, args_two, scale_body, update_px, List.range_succ, dmul]

/-- C11 as stated fails: with the frame given as the flat sequence `[1,1,1,1,1,1]` the loop
makes `len(frame) = 6` passes over two points; the third pass reads `noise[2]` and
`pixels[6]`, outside both arrays, and the call has undefined behaviour. -/
theorem py_render_golden_flat_frame :
    args_two_flat.pixels = [some 1, some 1, some 1, some 1, some 1, some 1] ∧
    args_two_flat.framelen = args_two_flat.pixels.length ∧
    (2, 6) ∈ accesses args_two_flat.framelen ∧
    py_render PERM_ref GRAD3_ref malloc_ok args_two_flat = none := by
  refine ⟨rfl, rfl, ?_, ?_⟩
  · rw [mem_accesses]
    simp [args_two_flat, args_two]
  · rw [py_render_ok PERM_ref GRAD3_ref malloc_ok args_two_flat rfl rfl (fun _ => rfl)]
    have hf := noise_field_args_two PERM_ref GRAD3_ref
    have hf' : noise_field PERM_ref (GRAD3_ref : Int → Nat → ℚ) args_two_flat.zoom
        args_two_flat.modelX args_two_flat.modelY args_two_flat.modelZ args_two_flat.time
        args_two_flat.time_const args_two_flat.octaves = _ := hf
    rw [hf']
    simp [composite, args_two_flat, args_two, scale_body, update_px, List.range_succ, dmul]

/-! ## Identities of the compositing -/

/-- A field whose values leave every pixel as it is leaves the whole buffer as it is. -/
theorem composite_eq_self (color : Fin 3 → K) (noise pixels : List (Option K))
    (framelen : Nat) (hk : framelen ≤ noise.length) (hp : 3 * framelen ≤ pixels.length)
    (hn : ∀ (c : Fin 3) (p n : Option K), n ∈ noise → blend color c p n = p) :
    composite color noise framelen pixels = some pixels := by
  obtain ⟨px, hpx, hlen, hget⟩ := composite_spec color noise pixels framelen hk hp
  rw [hpx]
  congr 1
  apply List.ext_getElem?
  intro j
  have hj : j = 3 * (j / 3) + (⟨j % 3, Nat.mod_lt _ (by norm_num)⟩ : Fin 3).val := by
    simp only
    omega
  rw [hj, hget]
  split_ifs with hlt
  · have hi : j / 3 < noise.length := by omega
    simp only [updated, List.getElem?_eq_getElem hi, Option.map_some']
    cases h : pixels[3 * (j / 3) + j % 3]? with
    | none => rfl
    | some p => simp [hn _ p _ (List.getElem_mem hi)]
  · rfl

/-- C12. Multiplicative identity: with the colour `(0,0,0)`, a noise field of `N` ones and a
frame of `N` rows holding `3N` doubles, the compositing leaves every component of the pixel
buffer as it was, and so does a second compositing of the result. -/
theorem composite_ones (color : Fin 3 → K) (pixels : List (Option K)) (N : Nat)
    (hcolor : color 0 = 0 ∧ color 1 = 0 ∧ color 2 = 0) (hp : pixels.length = 3 * N) :
    composite color (List.replicate N (some 1)) N pixels = some pixels ∧
    (composite color (List.replicate N (some 1)) N pixels).bind
      (composite color (List.replicate N (some 1)) N) = some pixels := by
  have h : composite color (List.replicate N (some 1)) N pixels = some pixels := by
    apply composite_eq_self
    · simp
    · omega
    · intro c p n hn
      rw [List.eq_of_mem_replicate hn, blend, if_pos hcolor]
      cases p <;> simp [dmul]
  exact ⟨h, by rw [h, Option.some_bind, h]⟩

/-- Witness of C12: two white pixels under a field of two ones. -/
theorem composite_ones_witness :
    composite (fun _ => (0 : ℚ)) (List.replicate 2 (some 1)) 2
        [some 1, some 1, some 1, some 1, some 1, some 1] =
      some [some 1, some 1, some 1, some 1, some 1, some 1] ∧
    (composite (fun _ => (0 : ℚ)) (List.replicate 2 (some 1)) 2
        [some 1, some 1, some 1, some 1, some 1, some 1]).bind
      (composite (fun _ => (0 : ℚ)) (List.replicate 2 (some 1)) 2) =
      some [some 1, some 1, some 1, some 1, some 1, some 1] :=
  composite_ones (fun _ => (0 : ℚ)) [some 1, some 1, some 1, some 1, some 1, some 1] 2
    ⟨rfl, rfl, rfl⟩ rfl

/-- C13. Additive identity: with a colour that has a non-zero component, a noise field of
`N` zeros and a frame of `N` rows holding `3N` doubles, the compositing leaves every
component of the pixel buffer as it was. -/
theorem composite_zeros (color : Fin 3 → K) (pixels : List (Option K)) (N : Nat)
    (hcolor : color 0 ≠ 0 ∨ color 1 ≠ 0 ∨ color 2 ≠ 0) (hp : pixels.length = 3 * N) :
    composite color (List.replicate N (some 0)) N pixels = some pixels := by
  apply composite_eq_self
  · simp
  · omega
  · intro c p n hn
    have hne : ¬ (color 0 = 0 ∧ color 1 = 0 ∧ color 2 = 0) := by
      rintro ⟨h0, h1, h2⟩
      rcases hcolor with h | h | h
      · exact h h0
      · exact h h1
      · exact h h2
    rw [List.eq_of_mem_replicate hn, blend, if_neg hne]
    cases p <;> simp [dadd, dmul]

/-- Witness of C13: two white pixels, the tint `(0, 0, 0.5)`, a field of two zeros. -/
theorem composite_zeros_witness :
    composite (![0, 0, 0.5] : Fin 3 → ℚ) (List.replicate 2 (some 0)) 2
        [some 1, some 1, some 1, some 1, some 1, some 1] =
      some [some 1, some 1, some 1, some 1, some 1, some 1] :=
  composite_zeros (![0, 0, 0.5] : Fin 3 → ℚ) [some 1, some 1, some 1, some 1, some 1, some 1] 2
    (Or.inr (Or.inr (by norm_num))) rfl

/-! ## The scratch buffers -/

/-- C14. The scratch buffers are not released on every exit path.  When the allocation of
`scaledX`, of `scaledY` or of `scaledZ` fails, the `goto` chain frees what was allocated and
nothing stays live; when the allocation of `noise` fails, `py_render` returns the
`MemoryError` at once and `scaledX`, `scaledY` and `scaledZ` stay allocated. -/
theorem py_render_noise_alloc_leak :
    py_render PERM_ref GRAD3_ref (malloc_fails_at .scaledX) args_two =
      some ⟨.error .MemoryError, args_two.pixels, []⟩ ∧
    py_render PERM_ref GRAD3_ref (malloc_fails_at .scaledY) args_two =
      some ⟨.error .MemoryError, args_two.pixels, []⟩ ∧
    py_render PERM_ref GRAD3_ref (malloc_fails_at .scaledZ) args_two =
      some ⟨.error .MemoryError, args_two.pixels, []⟩ ∧
    py_render PERM_ref GRAD3_ref (malloc_fails_at .noise) args_two =
      some ⟨.error .MemoryError, args_two.pixels, [.scaledX, .scaledY, .scaledZ]⟩ := by
  refine ⟨?_, ?_, ?_, ?_⟩ <;> simp [py_render, malloc_fails_at, args_two]

/-! ## The cell indices before folding -/

theorem cell_i_eq_raw (x : K) (P : Int) : cell_i x P = int_and (raw_i x P) 255 := rfl

theorem cell_ii_eq_raw (x : K) (P : Int) : cell_ii x P = int_and (raw_ii x P) 255 := rfl

theorem fmod_eq_floored_mod_of_nonneg (x : K) (P : Int) (hP : 1 ≤ P) (hx : 0 ≤ x) :
    fmod x (P : K) = floored_mod x P := by
  have hPK : (0 : K) < (P : K) := by exact_mod_cast (by omega : (0 : Int) < P)
  unfold fmod floored_mod toInt
  rw [if_pos (div_nonneg hx hPK.le)]

theorem floored_mod_bounds (x : K) (P : Int) (hP : 1 ≤ P) :
    0 ≤ floored_mod x P ∧ floored_mod x P < (P : K) := by
  have hPK : (0 : K) < (P : K) := by exact_mod_cast (by omega : (0 : Int) < P)
  have h1 := Int.floor_le (x / (P : K))
  have h2 := Int.lt_floor_add_one (x / (P : K))
  have hx : x = x / (P : K) * (P : K) := by field_simp
  unfold floored_mod
  constructor
  · nlinarith
  · nlinarith

theorem toInt_fmod_succ (i P : Int) (hi0 : 0 ≤ i) (hiP : i < P) :
    toInt (fmod (((i + 1 : Int) : K)) (P : K)) = (i + 1) % P := by
  have hPK : (0 : K) < (P : K) := by exact_mod_cast (by omega : (0 : Int) < P)
  rw [toInt_fmod_intCast]
  have hq : (0 : K) ≤ ((i + 1 : Int) : K) / (P : K) :=
    div_nonneg (by exact_mod_cast (by omega : (0 : Int) ≤ i + 1)) hPK.le
  unfold toInt
  rw [if_pos hq]
  rcases (by omega : i + 1 < P ∨ i + 1 = P) with h | h
  · have hf : ⌊((i + 1 : Int) : K) / (P : K)⌋ = 0 := by
      rw [Int.floor_eq_iff]
      refine ⟨by simpa using hq, ?_⟩
      rw [Int.cast_zero, zero_add, div_lt_one hPK]
      exact_mod_cast h
    rw [hf, zero_mul, sub_zero, Int.emod_eq_of_lt (by omega) h]
  · have hf : ⌊((i + 1 : Int) : K) / (P : K)⌋ = 1 := by
      rw [h, div_self hPK.ne']
      exact Int.floor_one
    rw [hf, h]
    simp

/-- C15, amended. For every period `P ≥ 1` the index `i` of `noise3` before folding is
congruent to `floor(x)` modulo `P` and the neighbour index `ii` to `i + 1`, whatever the sign
of `x`; for `x ≥ 0` the index `i` is `floor(x mod P)` under the floored modulo, so
`0 ≤ i < P`, and `ii` is `(i + 1) mod P` with `0 ≤ ii < P`. -/
theorem raw_index_spec (x : K) (P : Int) (hP : 1 ≤ P) :
    P ∣ raw_i x P - ⌊x⌋ ∧ P ∣ raw_ii x P - (raw_i x P + 1) ∧
    (0 ≤ x →
      raw_i x P = ⌊floored_mod x P⌋ ∧ 0 ≤ raw_i x P ∧ raw_i x P < P ∧
      raw_ii x P = (raw_i x P + 1) % P ∧ 0 ≤ raw_ii x P ∧ raw_ii x P < P) := by
  refine ⟨?_, ?_, fun hx => ?_⟩
  · unfold raw_i
    rw [floor_fmod]
    exact ⟨-toInt (x / (P : K)), by ring⟩
  · unfold raw_ii
    rw [toInt_fmod_intCast]
    exact ⟨-toInt ((((raw_i x P + 1 : Int)) : K) / (P : K)), by ring⟩
  · have hb := floored_mod_bounds x P hP
    have hi : raw_i x P = ⌊floored_mod x P⌋ := by
      unfold raw_i
      rw [fmod_eq_floored_mod_of_nonneg x P hP hx]
    have h0 : 0 ≤ raw_i x P := by rw [hi]; exact Int.floor_nonneg.mpr hb.1
    have h1 : raw_i x P < P := by rw [hi]; exact Int.floor_lt.mpr hb.2
    have hii : raw_ii x P = (raw_i x P + 1) % P := toInt_fmod_succ (raw_i x P) P h0 h1
    refine ⟨hi, h0, h1, hii, ?_, ?_⟩
    · rw [hii]; exact Int.emod_nonneg _ (by omega)
    · rw [hii]; exact Int.emod_lt_of_pos _ (by omega)

/-- Witness of C15 amended: `x = 5/2` with period 2. -/
theorem raw_index_spec_witness :
    (1 : Int) ≤ 2 ∧ (0 : ℚ) ≤ 5 / 2 ∧
    raw_i (5 / 2 : ℚ) 2 = ⌊floored_mod (5 / 2 : ℚ) 2⌋ ∧ 0 ≤ raw_i (5 / 2 : ℚ) 2 ∧
    raw_i (5 / 2 : ℚ) 2 < 2 ∧ raw_ii (5 / 2 : ℚ) 2 = (raw_i (5 / 2 : ℚ) 2 + 1) % 2 ∧
    0 ≤ raw_ii (5 / 2 : ℚ) 2 ∧ raw_ii (5 / 2 : ℚ) 2 < 2 :=
  ⟨by decide, by norm_num,
    (raw_index_spec (5 / 2 : ℚ) 2 (by decide)).2.2 (by norm_num)⟩

/-- C15 as stated fails at a negative coordinate: for `x = -1/2` and period 1 the index `i`
of `noise3` is `floor(fmodf(-0.5, 1)) = floor(-0.5) = -1`, which is negative, while
`floor(x mod 1) = floor(0.5) = 0`. -/
theorem raw_i_negative :
    (1 : Int) ≤ 1 ∧ raw_i (-1 / 2 : ℚ) 1 = -1 ∧ ⌊floored_mod (-1 / 2 : ℚ) 1⌋ = 0 ∧
    raw_i (-1 / 2 : ℚ) 1 ≠ ⌊floored_mod (-1 / 2 : ℚ) 1⌋ ∧ ¬ (0 ≤ raw_i (-1 / 2 : ℚ) 1) := by
  have hc : ⌈(-1 / 2 : ℚ)⌉ = 0 := by rw [Int.ceil_eq_iff]; norm_num
  have hf : ⌊(-1 / 2 : ℚ)⌋ = -1 := by rw [Int.floor_eq_iff]; norm_num
  have hh : ⌊(1 / 2 : ℚ)⌋ = 0 := by rw [Int.floor_eq_iff]; norm_num
  have ht : toInt (-1 / 2 : ℚ) = 0 := by
    unfold toInt; rw [if_neg (by norm_num), hc]
  have hm : fmod (-1 / 2 : ℚ) ((1 : Int) : ℚ) = -1 / 2 := by
    unfold fmod; rw [Int.cast_one, div_one, ht]; norm_num
  have hr : raw_i (-1 / 2 : ℚ) 1 = -1 := by unfold raw_i; rw [hm, hf]
  have hfm : floored_mod (-1 / 2 : ℚ) 1 = 1 / 2 := by
    unfold floored_mod; rw [Int.cast_one, div_one, hf]; norm_num
  refine ⟨le_refl _, hr, by rw [hfm, hh], by rw [hr, hfm, hh]; decide, by rw [hr]; decide⟩

/-! ## The reads of the tables -/

theorem int_and_15 (i : Int) : int_and i 15 = i % 16 := by
  have hb : bits32 15 = 2 ^ 4 - 1 := by decide
  have hlt : bits32 i % 2 ^ 4 < 2 ^ 31 := lt_of_lt_of_le (Nat.mod_lt _ (by norm_num)) (by norm_num)
  unfold int_and
  rw [hb, Nat.and_pow_two_sub_one_eq_mod, ofBits32, if_pos hlt]
  unfold bits32
  rw [Int.natCast_mod, Int.toNat_of_nonneg (Int.emod_nonneg _ (by norm_num))]
  exact Int.emod_emod_of_dvd i (by norm_num)

theorem cell_i_bounds (x : K) (P : Int) : 0 ≤ cell_i x P ∧ cell_i x P ≤ 255 := by
  unfold cell_i
  rw [int_and_255]
  omega

theorem cell_ii_bounds (x : K) (P : Int) : 0 ≤ cell_ii x P ∧ cell_ii x P ≤ 255 := by
  unfold cell_ii
  rw [int_and_255]
  omega

/-- The function `noise3` reads its tables at the listed places only: two pairs of tables
that agree at the indices of `perm_reads_cell` and on the rows of `grad_reads_cell` give the
same value. -/
theorem noise3_cell_congr_tables (PERM PERM' : Int → Int) (GRAD3 GRAD3' : Int → Nat → K)
    (i j k ii jj kk : Int) (x y z : K)
    (hP : ∀ idx ∈ perm_reads_cell PERM i j k ii jj kk, PERM' idx = PERM idx)
    (hG : ∀ h ∈ grad_reads_cell PERM i j k ii jj kk, ∀ c, GRAD3' h c = GRAD3 h c) :
    noise3_cell PERM' GRAD3' i j k ii jj kk x y z =
      noise3_cell PERM GRAD3 i j k ii jj kk x y z := by
  simp only [perm_reads_cell, List.mem_cons, List.mem_singleton, List.not_mem_nil, or_false,
    forall_eq_or_imp, forall_eq] at hP
  obtain ⟨p1, p2, p3, p4, p5, p6, p7, p8, p9, p10, p11, p12, p13, p14⟩ := hP
  simp only [grad_reads_cell, List.mem_cons, List.mem_singleton, List.not_mem_nil, or_false,
    forall_eq_or_imp, forall_eq] at hG
  obtain ⟨g1, g2, g3, g4, g5, g6, g7, g8⟩ := hG
  simp only [noise3_cell, grad3, p1, p2, p3, p4, p5, p6, p7, p8, p9, p10, p11, p12, p13, p14,
    g1, g2, g3, g4, g5, g6, g7, g8]

/-- C16. For base 0, periods at least 1 and any point, when every entry of `PERM` lies in
`0..255`: the six folded indices lie in `[0, 255]`, every index at which `noise3` reads
`PERM` lies in `[0, 510]`, and every row `hash & 15` of `GRAD3` lies in `[0, 15]`. -/
theorem noise3_index_bounds (PERM : Int → Int) (x y z : K) (repeatx repeaty repeatz : Int)
    (_hperiod : 1 ≤ repeatx ∧ 1 ≤ repeaty ∧ 1 ≤ repeatz)
    (hPERM : ∀ n, 0 ≤ PERM n ∧ PERM n ≤ 255) :
    ((0 ≤ cell_i x repeatx ∧ cell_i x repeatx ≤ 255) ∧
     (0 ≤ cell_i y repeaty ∧ cell_i y repeaty ≤ 255) ∧
     (0 ≤ cell_i z repeatz ∧ cell_i z repeatz ≤ 255) ∧
     (0 ≤ cell_ii x repeatx ∧ cell_ii x repeatx ≤ 255) ∧
     (0 ≤ cell_ii y repeaty ∧ cell_ii y repeaty ≤ 255) ∧
     (0 ≤ cell_ii z repeatz ∧ cell_ii z repeatz ≤ 255)) ∧
    (∀ idx ∈ perm_reads PERM x y z repeatx repeaty repeatz 0, 0 ≤ idx ∧ idx ≤ 510) ∧
    (∀ h ∈ grad_reads PERM x y z repeatx repeaty repeatz 0, 0 ≤ h ∧ h ≤ 15) := by
  have hi := cell_i_bounds x repeatx
  have hj := cell_i_bounds y repeaty
  have hk := cell_i_bounds z repeatz
  have hii := cell_ii_bounds x repeatx
  have hjj := cell_ii_bounds y repeaty
  have hkk := cell_ii_bounds z repeatz
  refine ⟨⟨hi, hj, hk, hii, hjj, hkk⟩, ?_, ?_⟩
  · intro idx hidx
    simp only [perm_reads, perm_reads_cell, List.mem_cons, List.mem_singleton,
      List.not_mem_nil, or_false, add_zero] at hidx
    rcases hidx with h | h | h | h | h | h | h | h | h | h | h | h | h | h
    all_goals first
      | (rw [h]; omega)
      | (rw [h]
         have := hPERM (PERM (cell_i x repeatx) + cell_i y repeaty)
         have := hPERM (PERM (cell_i x repeatx) + cell_ii y repeaty)
         have := hPERM (PERM (cell_ii x repeatx) + cell_i y repeaty)
         have := hPERM (PERM (cell_ii x repeatx) + cell_ii y repeaty)
         have := hPERM (cell_i x repeatx)
         have := hPERM (cell_ii x repeatx)
         omega)
  · intro h hh
    simp only [grad_reads, grad_reads_cell, List.mem_cons, List.mem_singleton,
      List.not_mem_nil, or_false] at hh
    rcases hh with h' | h' | h' | h' | h' | h' | h' | h' <;>
      (rw [h', int_and_15]; omega)

set_option maxRecDepth 100000 in
theorem PERM_ref_bounds (n : Int) : 0 ≤ PERM_ref n ∧ PERM_ref n ≤ 255 := by
  have hall : ∀ v ∈ permTable ++ permTable, v ≤ 255 := by decide
  unfold PERM_ref
  rw [List.getD_eq_getElem?_getD]
  cases h : (permTable ++ permTable)[n.toNat]? with
  | none => simp
  | some v =>
    have hv := hall v (List.getElem?_mem h)
    simp only [Option.getD_some]
    omega

/-- Witness of C16: the reference permutation at the point `(-1/2, 0, 0)` with period 1. -/
theorem noise3_index_bounds_witness :
    ((1 : Int) ≤ 1 ∧ (1 : Int) ≤ 1 ∧ (1 : Int) ≤ 1) ∧
    (∀ n, 0 ≤ PERM_ref n ∧ PERM_ref n ≤ 255) ∧
    (∀ idx ∈ perm_reads PERM_ref (-1 / 2 : ℚ) 0 0 1 1 1 0, 0 ≤ idx ∧ idx ≤ 510) ∧
    (∀ h ∈ grad_reads PERM_ref (-1 / 2 : ℚ) 0 0 1 1 1 0, 0 ≤ h ∧ h ≤ 15) :=
  ⟨by decide, PERM_ref_bounds,
    (noise3_index_bounds PERM_ref (-1 / 2 : ℚ) 0 0 1 1 1 (by decide) PERM_ref_bounds).2⟩

/-! ## The fade curve and the order of the interpolation -/

/-- The function `noise3` interpolates the eight corner values with the weights `fade`. -/
theorem noise3_cell_eq_trilerp (PERM : Int → Int) (GRAD3 : Int → Nat → K)
    (i j k ii jj kk : Int) (x y z : K) :
    noise3_cell PERM GRAD3 i j k ii jj kk x y z =
      trilerp (fade x) (fade y) (fade z)
        (grad3 GRAD3 (PERM (PERM (PERM i + j) + k)) x y z)
        (grad3 GRAD3 (PERM (PERM (PERM ii + j) + k)) (x - 1) y z)
        (grad3 GRAD3 (PERM (PERM (PERM i + jj) + k)) x (y - 1) z)
        (grad3 GRAD3 (PERM (PERM (PERM ii + jj) + k)) (x - 1) (y - 1) z)
        (grad3 GRAD3 (PERM (PERM (PERM i + j) + kk)) x y (z - 1))
        (grad3 GRAD3 (PERM (PERM (PERM ii + j) + kk)) (x - 1) y (z - 1))
        (grad3 GRAD3 (PERM (PERM (PERM i + jj) + kk)) x (y - 1) (z - 1))
        (grad3 GRAD3 (PERM (PERM (PERM ii + jj) + kk)) (x - 1) (y - 1) (z - 1)) := rfl

/-- C17. The weight of `noise3`, `t*t*t*(t*(t*6-15)+10)`, is the quintic
`t^3*(6t^2-15t+10) = 6t^5-15t^4+10t^3`; it is 0 at 0 and 1 at 1, and it is not the cubic
smoothstep `3t^2-2t^3` (they differ at `t = 1/4`). -/
theorem fade_quintic (t : K) :
    fade t = t ^ 3 * (6 * t ^ 2 - 15 * t + 10) ∧
    fade t = 6 * t ^ 5 - 15 * t ^ 4 + 10 * t ^ 3 ∧
    fade (0 : K) = 0 ∧ fade (1 : K) = 1 ∧
    fade (1 / 4 : K) ≠ 3 * (1 / 4) ^ 2 - 2 * (1 / 4) ^ 3 := by
  refine ⟨by unfold fade; ring, by unfold fade; ring, by unfold fade; ring,
    by unfold fade; ring, ?_⟩
  unfold fade
  norm_num

/-- C18. In exact arithmetic the interpolation of `noise3` (X first, then Y, then Z) gives
the same value as the three `lerp`s taken in any of the five other orders of the axes, for
all corner values and all weights. -/
theorem trilerp_order (fx fy fz c000 c100 c010 c110 c001 c101 c011 c111 : K) :
    -- Z first, then Y, then X
    trilerp fx fy fz c000 c100 c010 c110 c001 c101 c011 c111 =
      lerp fx (lerp fy (lerp fz c000 c001) (lerp fz c010 c011))
              (lerp fy (lerp fz c100 c101) (lerp fz c110 c111)) ∧
    -- Y first, then X, then Z
    trilerp fx fy fz c000 c100 c010 c110 c001 c101 c011 c111 =
      lerp fz (lerp fx (lerp fy c000 c010) (lerp fy c100 c110))
              (lerp fx (lerp fy c001 c011) (lerp fy c101 c111)) ∧
    -- X first, then Z, then Y
    trilerp fx fy fz c000 c100 c010 c110 c001 c101 c011 c111 =
      lerp fy (lerp fz (lerp fx c000 c100) (lerp fx c001 c101))
              (lerp fz (lerp fx c010 c110) (lerp fx c011 c111)) ∧
    -- Y first, then Z, then X
    trilerp fx fy fz c000 c100 c010 c110 c001 c101 c011 c111 =
      lerp fx (lerp fz (lerp fy c000 c010) (lerp fy c001 c011))
              (lerp fz (lerp fy c100 c110) (lerp fy c101 c111)) ∧
    -- Z first, then X, then Y
    trilerp fx fy fz c000 c100 c010 c110 c001 c101 c011 c111 =
      lerp fy (lerp fx (lerp fz c000 c001) (lerp fz c100 c101))
              (lerp fx (lerp fz c010 c011) (lerp fz c110 c111)) := by
  refine ⟨?_, ?_, ?_, ?_, ?_⟩ <;> (unfold trilerp lerp; ring)

/-! ## The lattice points -/

theorem octave_noise_lattice (PERM : Int → Int) (GRAD3 : Int → Nat → K) (a b c : Int)
    (o : Nat) : octave_noise PERM GRAD3 (a : K) (b : K) (c : K) o = 0 := by
  unfold octave_noise
  have ha : (a : K) * 2 ^ o = ((a * 2 ^ o : Int) : K) := by push_cast; ring
  have hb : (b : K) * 2 ^ o = ((b * 2 ^ o : Int) : K) := by push_cast; ring
  have hc : (c : K) * 2 ^ o = ((c * 2 ^ o : Int) : K) := by push_cast; ring
  rw [ha, hb, hc]
  exact noise3_lattice PERM GRAD3 _ _ _ _ _ _ _

theorem make_noise_lattice (PERM : Int → Int) (GRAD3 : Int → Nat → K) (a b c : Int)
    (n : Nat) (hn : 1 ≤ n) :
    make_noise PERM GRAD3 (a : K) (b : K) (c : K) (n : Int) = some 0 := by
  rw [make_noise_eq PERM GRAD3 _ _ _ n hn]
  simp [octave_noise_lattice]

/-- C19. At a point with integer coordinates, for any tables, any periods at least 1 and
base 0, `noise3` is 0; hence `make_noise` returns 0 there for every octave count `n ≥ 1`,
and the field value of the point after `1.2f*noise[i] + (1.2f*0.35f)` is 0.42. -/
theorem noise3_vanishes_on_lattice (PERM : Int → Int) (GRAD3 : Int → Nat → K) (a b c : Int)
    (repeatx repeaty repeatz : Int) (_hperiod : 1 ≤ repeatx ∧ 1 ≤ repeaty ∧ 1 ≤ repeatz)
    (n : Nat) (hn : 1 ≤ n) (time_const : K) :
    noise3 PERM GRAD3 (a : K) (b : K) (c : K) repeatx repeaty repeatz 0 = 0 ∧
    make_noise PERM GRAD3 (a : K) (b : K) (c : K) (n : Int) = some 0 ∧
    noise_field PERM GRAD3 1 [(a : K)] [(b : K)] [(c : K)] 0 time_const (n : Int) =
      [some 0.42] := by
  refine ⟨noise3_lattice PERM GRAD3 a b c _ _ _ _, make_noise_lattice PERM GRAD3 a b c n hn, ?_⟩
  simp only [noise_field, List.map, List.zipWith3, z_offset_time_zero, mul_one, add_zero,
    make_noise_lattice PERM GRAD3 a b c n hn, dadd, dmul, Option.some_bind, Option.map_some']
  norm_num

/-- Witness of C19: the point `(3, -2, 7)`, period 5 and three octaves. -/
theorem noise3_vanishes_on_lattice_witness :
    ((1 : Int) ≤ 5 ∧ (1 : Int) ≤ 5 ∧ (1 : Int) ≤ 5) ∧ 1 ≤ 3 ∧
    noise3 PERM_ref (GRAD3_ref : Int → Nat → ℚ) ((3 : Int) : ℚ) ((-2 : Int) : ℚ)
      ((7 : Int) : ℚ) 5 5 5 0 = 0 ∧
    make_noise PERM_ref (GRAD3_ref : Int → Nat → ℚ) ((3 : Int) : ℚ) ((-2 : Int) : ℚ)
      ((7 : Int) : ℚ) ((3 : Nat) : Int) = some 0 ∧
    noise_field PERM_ref (GRAD3_ref : Int → Nat → ℚ) 1 [((3 : Int) : ℚ)] [((-2 : Int) : ℚ)]
      [((7 : Int) : ℚ)] 0 0 ((3 : Nat) : Int) = [some 0.42] :=
  ⟨by decide, by decide,
    noise3_vanishes_on_lattice PERM_ref GRAD3_ref 3 (-2) 7 5 5 5 (by decide) 3 (by decide) 0⟩

/-! ## Periodicity along the three axes -/

/-- When 256 divides the three periods, `noise3` does not change when the coordinates move
by multiples of 256. -/
theorem noise3_add_256 (PERM : Int → Int) (GRAD3 : Int → Nat → K) (x y z : K)
    (rx ry rz base mx my mz : Int) (hx : 256 ∣ rx) (hy : 256 ∣ ry) (hz : 256 ∣ rz) :
    noise3 PERM GRAD3 (x + ((256 * mx : Int) : K)) (y + ((256 * my : Int) : K))
        (z + ((256 * mz : Int) : K)) rx ry rz base =
      noise3 PERM GRAD3 x y z rx ry rz base := by
  rw [noise3_eq_cell, noise3_eq_cell, cell_frac_add_intCast, cell_frac_add_intCast,
    cell_frac_add_intCast]
  obtain ⟨h1, h2⟩ := cell_add_of_dvd x rx mx hx
  obtain ⟨h3, h4⟩ := cell_add_of_dvd y ry my hy
  obtain ⟨h5, h6⟩ := cell_add_of_dvd z rz mz hz
  rw [h1, h2, h3, h4, h5, h6]

theorem make_noise_add_x (PERM : Int → Int) (GRAD3 : Int → Nat → K) (x y z : K)
    (octaves : Int) :
    make_noise PERM GRAD3 (x + 1024) y z octaves = make_noise PERM GRAD3 x y z octaves := by
  have ho : ∀ o, octave_noise PERM GRAD3 (x + 1024) y z o = octave_noise PERM GRAD3 x y z o := by
    intro o
    unfold octave_noise
    have hx : (x + 1024) * 2 ^ o = x * 2 ^ o + ((256 * (4 * 2 ^ o) : Int) : K) := by
      push_cast; ring
    have hd : (256 : Int) ∣ 1024 * 2 ^ o := ⟨4 * 2 ^ o, by ring⟩
    have key := noise3_add_256 PERM GRAD3 (x * 2 ^ o) (y * 2 ^ o) (z * 2 ^ o) (1024 * 2 ^ o)
      (1024 * 2 ^ o) (1024 * 2 ^ o) 0 (4 * 2 ^ o) 0 0 hd hd hd
    simp only [mul_zero, Int.cast_zero, add_zero] at key
    rw [hx]
    exact key
  unfold make_noise
  simp only [make_noise_loop_eq, ho]

/-- C20. For every period `P ≥ 1` that is a multiple of 256 (such as the periods
`1024 * 2 ^ o` of the program) and every point, negative coordinates included, `noise3` has
period `P` along X, along Y and along Z; hence `make_noise(x+1024, y, z, n)` is
`make_noise(x, y, z, n)` for every `n ≥ 1`. -/
theorem noise3_periodic_of_dvd (PERM : Int → Int) (GRAD3 : Int → Nat → K) (x y z : K)
    (P : Int) (_hP : 1 ≤ P) (h256 : 256 ∣ P) (n : Nat) (_hn : 1 ≤ n) :
    noise3 PERM GRAD3 (x + (P : K)) y z P P P 0 = noise3 PERM GRAD3 x y z P P P 0 ∧
    noise3 PERM GRAD3 x (y + (P : K)) z P P P 0 = noise3 PERM GRAD3 x y z P P P 0 ∧
    noise3 PERM GRAD3 x y (z + (P : K)) P P P 0 = noise3 PERM GRAD3 x y z P P P 0 ∧
    (∀ o : Nat, (256 : Int) ∣ 1024 * 2 ^ o) ∧
    make_noise PERM GRAD3 (x + 1024) y z (n : Int) = make_noise PERM GRAD3 x y z (n : Int) := by
  obtain ⟨q, rfl⟩ := h256
  have h0 : ∀ v : K, v = v + ((256 * 0 : Int) : K) := by intro v; simp
  have hd : (256 : Int) ∣ 256 * q := ⟨q, rfl⟩
  refine ⟨?_, ?_, ?_, fun o => ⟨4 * 2 ^ o, by ring⟩, make_noise_add_x PERM GRAD3 x y z n⟩
  · conv_lhs => rw [h0 y, h0 z]
    exact noise3_add_256 PERM GRAD3 x y z _ _ _ 0 q 0 0 hd hd hd
  · conv_lhs => rw [h0 x, h0 z]
    exact noise3_add_256 PERM GRAD3 x y z _ _ _ 0 0 q 0 hd hd hd
  · conv_lhs => rw [h0 x, h0 y]
    exact noise3_add_256 PERM GRAD3 x y z _ _ _ 0 0 0 q hd hd hd

/-- Witness of C20: period 1024 at the point `(-1/2, -3/4, -5)`, two octaves. -/
theorem noise3_periodic_of_dvd_witness :
    (1 : Int) ≤ 1024 ∧ (256 : Int) ∣ 1024 ∧ 1 ≤ 2 ∧
    noise3 PERM_ref (GRAD3_ref : Int → Nat → ℚ) (-1 / 2 + ((1024 : Int) : ℚ)) (-3 / 4) (-5)
        1024 1024 1024 0 =
      noise3 PERM_ref GRAD3_ref (-1 / 2) (-3 / 4) (-5) 1024 1024 1024 0 ∧
    make_noise PERM_ref (GRAD3_ref : Int → Nat → ℚ) (-1 / 2 + 1024) (-3 / 4) (-5)
        ((2 : Nat) : Int) =
      make_noise PERM_ref GRAD3_ref (-1 / 2) (-3 / 4) (-5) ((2 : Nat) : Int) :=
  ⟨by decide, by decide, by decide,
    (noise3_periodic_of_dvd PERM_ref GRAD3_ref (-1 / 2 : ℚ) (-3 / 4) (-5) 1024 (by decide)
      (by decide) 2 (by decide)).1,
    (noise3_periodic_of_dvd PERM_ref GRAD3_ref (-1 / 2 : ℚ) (-3 / 4) (-5) 1024 (by decide)
      (by decide) 2 (by decide)).2.2.2.2⟩

end Theorems

end CPlasma
